import Mathlib

/-!
# Verification of the Issue Normalization & Version Lifecycle Engine

A shallow embedding, in Lean 4, of the core logic of a Jira-export
analytics dashboard: the CSV tabular parser, the schema resolver, the
field normalizers (dates, durations, version comparison), the issue
mapper, and the release-lifecycle classifier, together with proofs of
the behavioural properties stated in the project specification.

Modelling conventions:
* JavaScript strings are Lean `String`s (a `String` in this toolchain is
  a structure wrapping `List Char`, so string functions are defined by
  recursion over the character list).
* `string | null` values are `Option String`; a map lookup that can miss
  is `Option (Option String)` (`none` = no entry, `some none` = entry
  whose stored value is null).
* JavaScript numbers are modelled exactly as rationals (`ℚ`).  The
  program only performs divisions by 3600 and 60 and two-decimal
  rounding on small human-entered quantities, where binary floating
  point and exact arithmetic agree; non-finite values (`Infinity`,
  `NaN` as a stored number) are outside the model.
* `Date` is modelled by its time value: minutes since the Unix epoch
  (an `Int`), with the host clock taken to be UTC.  The component
  constructor `new Date(y, m, d, hh, mm)` normalizes out-of-range
  components exactly as ECMAScript `MakeDay`/`MakeTime` do, including
  the `0 ≤ y ≤ 99 ⇒ y + 1900` rule.  String parsing models the
  ECMA-mandated ISO format (with expanded years); the engine-specific
  legacy heuristics of `new Date(string)` for non-ISO strings are
  implementation-defined and modelled as a parse failure.
-/

/-- The JavaScript whitespace characters relevant to `trim` and `\s`
(space, tab, line feed, carriage return, vertical tab, form feed). -/
def isWS (c : Char) : Bool :=
  c == ' ' || c == '\t' || c == '\n' || c == '\r' ||
  c.toNat == 11 || c.toNat == 12

/-- Drop leading whitespace from a character list. -/
def dropLeadWS (l : List Char) : List Char := l.dropWhile isWS

/-- Drop trailing whitespace from a character list. -/
def dropTrailWS : List Char → List Char
  | [] => []
  | c :: cs =>
    let r := dropTrailWS cs
    if r = [] && isWS c then [] else c :: r

/-- `String.prototype.trim`, over the character list. -/
def trimL (l : List Char) : List Char := dropTrailWS (dropLeadWS l)

/-- `String.prototype.trim` on strings. -/
def trimS (s : String) : String := ⟨trimL s.data⟩

/-- `[...new Set(xs)]`: deduplication keeping the first occurrence,
in order, as a JavaScript `Set` does. -/
def jsUnique : List String → List String
  | [] => []
  | x :: xs => x :: (jsUnique xs).filter (fun y => y ≠ x)

theorem mem_jsUnique {x : String} : ∀ {l : List String}, x ∈ jsUnique l → x ∈ l
  | [], h => by simp [jsUnique] at h
  | y :: ys, h => by
    simp only [jsUnique, List.mem_cons, List.mem_filter] at h
    rcases h with h | ⟨h, _⟩
    · exact h ▸ List.mem_cons_self _ _
    · exact List.mem_cons_of_mem _ (mem_jsUnique h)

theorem dropLeadWS_idem (l : List Char) : dropLeadWS (dropLeadWS l) = dropLeadWS l := by
  induction l with
  | nil => rfl
  | cons c cs ih =>
    by_cases h : isWS c = true
    · simp [dropLeadWS, List.dropWhile, h] at ih ⊢
      exact ih
    · simp [dropLeadWS, List.dropWhile, h]

theorem dropTrailWS_idem (l : List Char) : dropTrailWS (dropTrailWS l) = dropTrailWS l := by
  induction l with
  | nil => rfl
  | cons c cs ih =>
    by_cases hr : dropTrailWS cs = [] <;> by_cases hw : isWS c = true <;>
      simp [dropTrailWS, hr, hw, ih]

theorem dropWhile_length_le (p : Char → Bool) (l : List Char) :
    (l.dropWhile p).length ≤ l.length := by
  induction l with
  | nil => simp
  | cons c cs ih =>
    simp only [List.dropWhile]
    split <;> simp <;> omega

theorem dropLead_dropTrail (l : List Char) (h : dropLeadWS l = l) :
    dropLeadWS (dropTrailWS l) = dropTrailWS l := by
  cases l with
  | nil => rfl
  | cons c cs =>
    have hc : isWS c = false := by
      by_contra hc
      simp only [Bool.not_eq_false] at hc
      simp only [dropLeadWS, List.dropWhile, hc] at h
      have h1 : (List.dropWhile isWS cs).length ≤ cs.length := dropWhile_length_le isWS cs
      rw [h] at h1
      simp at h1
    by_cases hr : dropTrailWS cs = [] <;>
      simp [dropTrailWS, dropLeadWS, List.dropWhile, hr, hc]

theorem trimL_idem (l : List Char) : trimL (trimL l) = trimL l := by
  unfold trimL
  rw [dropLead_dropTrail _ (dropLeadWS_idem l), dropTrailWS_idem]

theorem trimS_idem (s : String) : trimS (trimS s) = trimS s := by
  simp [trimS, trimL_idem]

/-! ## The proleptic Gregorian calendar (ECMAScript `MakeDay`)

`daysFromCivil`/`civilFromDays` convert between a calendar date and the
day number relative to 1970-01-01, for any year, exactly as the
ECMAScript time values do.  Divisions are Euclidean (`Int.ediv`), which
coincides with floor division since every divisor is positive. -/

/-- March-shifted year used by the day-number conversion. -/
def dfcY2 (y m : Int) : Int := if m ≤ 2 then y - 1 else y

/-- 400-year era of a March-shifted year. -/
def dfcEra (y m : Int) : Int := dfcY2 y m / 400

/-- Year within the 400-year era. -/
def dfcYoe (y m : Int) : Int := dfcY2 y m - dfcEra y m * 400

/-- March-based month index (March = 0, …, February = 11). -/
def dfcMp (m : Int) : Int := if m > 2 then m - 3 else m + 9

/-- Day of the March-based year. -/
def dfcDoy (m d : Int) : Int := (153 * dfcMp m + 2) / 5 + d - 1

/-- Day number (relative to 1970-01-01) of the calendar date `(y, m, d)`
with month `m ∈ [1,12]`; the day `d` may be any integer, days outside
the month overflowing into neighbouring months exactly as the
ECMAScript `MakeDay` operation normalizes them. -/
def daysFromCivil (y m d : Int) : Int :=
  dfcEra y m * 146097 +
    (dfcYoe y m * 365 + dfcYoe y m / 4 - dfcYoe y m / 100 + dfcDoy m d) - 719468

/-- Day-of-era of a day number (era = 400 Gregorian years = 146097 days). -/
def cfdDoe (z : Int) : Int :=
  z + 719468 - ((z + 719468) / 146097) * 146097

/-- Year-of-era of a day number: the estimate `doe / 365` corrected down
by one when the estimated year starts after the day in question. -/
def cfdYoe (z : Int) : Int :=
  let doe := cfdDoe z
  let ya := doe / 365
  if 365 * ya + ya / 4 - ya / 100 + ya / 400 ≤ doe then ya else ya - 1

/-- Day of the March-based year of a day number. -/
def cfdDoy (z : Int) : Int :=
  cfdDoe z - (365 * cfdYoe z + cfdYoe z / 4 - cfdYoe z / 100)

/-- March-based month index of a day number. -/
def cfdMp (z : Int) : Int := (5 * cfdDoy z + 2) / 153

/-- Day of month of a day number. -/
def cfdD (z : Int) : Int := cfdDoy z - (153 * cfdMp z + 2) / 5 + 1

/-- Calendar month (1–12) of a day number. -/
def cfdM (z : Int) : Int := if cfdMp z < 10 then cfdMp z + 3 else cfdMp z - 9

/-- Calendar year of a day number. -/
def cfdY (z : Int) : Int :=
  if cfdM z ≤ 2 then cfdYoe z + ((z + 719468) / 146097) * 400 + 1
  else cfdYoe z + ((z + 719468) / 146097) * 400

/-- The `(year, month, day)` of a day number: the inverse of
`daysFromCivil`, implementing the ECMAScript `YearFromTime` /
`MonthFromTime` / `DateFromTime` denotational specification (which
defines the components as the unique valid calendar date of the time
value; `civilFromDays_valid` and `civilFromDays_daysFromCivil` below
certify uniqueness-defining properties). -/
def civilFromDays (z : Int) : Int × Int × Int := (cfdY z, cfdM z, cfdD z)

/-- Number of days in a month of a given year (month in `[1,12]`),
with the Gregorian leap rule. -/
def daysInMonth (y m : Int) : Int :=
  if m = 2 then
    if y % 4 = 0 ∧ (y % 100 ≠ 0 ∨ y % 400 = 0) then 29 else 28
  else if m = 4 ∨ m = 6 ∨ m = 9 ∨ m = 11 then 30
  else 31

theorem ediv4_pred_eq (ya : Int) (h : ya % 4 ≠ 0) : (ya - 1) / 4 = ya / 4 := by omega

theorem ediv4_pred_dvd (ya : Int) (h : ya % 4 = 0) : (ya - 1) / 4 = ya / 4 - 1 := by omega

theorem ediv100_pred_eq (ya : Int) (h : ya % 100 ≠ 0) : (ya - 1) / 100 = ya / 100 := by omega

theorem ediv100_pred_dvd (ya : Int) (h : ya % 100 = 0) : (ya - 1) / 100 = ya / 100 - 1 := by omega

set_option maxHeartbeats 4000000 in
theorem cfd_yoe_core (doe ya yoe : Int)
    (h0 : 0 ≤ doe) (h1 : doe ≤ 146096) (h3 : ya = doe / 365)
    (h4 : yoe = if 365 * ya + ya / 4 - ya / 100 + ya / 400 ≤ doe then ya else ya - 1) :
    0 ≤ yoe ∧ yoe ≤ 399 ∧ 0 ≤ doe - (365 * yoe + yoe / 4 - yoe / 100) ∧
    doe - (365 * yoe + yoe / 4 - yoe / 100) ≤ 365 ∧
    (doe - (365 * yoe + yoe / 4 - yoe / 100) = 365 →
      ((yoe + 1) % 4 = 0 ∧ ((yoe + 1) % 100 ≠ 0 ∨ (yoe + 1) % 400 = 0))) := by
  have hya : 0 ≤ ya ∧ ya ≤ 400 := by omega
  by_cases hy400 : ya = 400
  · subst hy400
    simp only [show ¬ (365 * 400 + 400 / 4 - 400 / 100 + 400 / 400 ≤ doe) by omega,
      if_false] at h4
    omega
  · have hlt : ya ≤ 399 := by omega
    have h400 : ya / 400 = 0 := by omega
    by_cases h4d : ya % 4 = 0 <;> by_cases h100d : ya % 100 = 0
    · have e1 := ediv4_pred_dvd ya h4d
      have e2 := ediv100_pred_dvd ya h100d
      by_cases hb : 365 * ya + ya / 4 - ya / 100 + ya / 400 ≤ doe <;>
        simp only [hb, if_true, if_false] at h4 <;> subst h4 <;> omega
    · have e1 := ediv4_pred_dvd ya h4d
      have e2 := ediv100_pred_eq ya h100d
      by_cases hb : 365 * ya + ya / 4 - ya / 100 + ya / 400 ≤ doe <;>
        simp only [hb, if_true, if_false] at h4 <;> subst h4 <;> omega
    · have e1 := ediv4_pred_eq ya h4d
      have e2 := ediv100_pred_dvd ya h100d
      by_cases hb : 365 * ya + ya / 4 - ya / 100 + ya / 400 ≤ doe <;>
        simp only [hb, if_true, if_false] at h4 <;> subst h4 <;> omega
    · have e1 := ediv4_pred_eq ya h4d
      have e2 := ediv100_pred_eq ya h100d
      by_cases hb : 365 * ya + ya / 4 - ya / 100 + ya / 400 ≤ doe <;>
        simp only [hb, if_true, if_false] at h4 <;> subst h4 <;> omega

set_option maxHeartbeats 4000000 in
theorem cfd_month_core (doy mp d : Int)
    (h0 : 0 ≤ doy) (h1 : doy ≤ 365)
    (h6 : mp = (5 * doy + 2) / 153)
    (h7 : d = doy - (153 * mp + 2) / 5 + 1) :
    0 ≤ mp ∧ mp ≤ 11 ∧ 1 ≤ d ∧ d ≤ 31 ∧
    (mp = 11 → d ≤ 29) ∧ (mp = 11 → d = 29 → doy = 365) ∧
    ((mp = 1 ∨ mp = 3 ∨ mp = 6 ∨ mp = 8) → d ≤ 30) ∧
    (153 * mp + 2) / 5 + d - 1 = doy := by
  omega

theorem cfd_era_core (era yoe : Int) (h0 : 0 ≤ yoe) (h1 : yoe ≤ 399) :
    (yoe + era * 400) / 400 = era ∧
    yoe + era * 400 - ((yoe + era * 400) / 400) * 400 = yoe := by
  omega

set_option maxHeartbeats 8000000 in
theorem civilFromDays_daysFromCivil (z : Int) :
    daysFromCivil (cfdY z) (cfdM z) (cfdD z) = z := by
  have hdoe : 0 ≤ cfdDoe z ∧ cfdDoe z ≤ 146096 := by unfold cfdDoe; omega
  have hdoeq : cfdDoe z = z + 719468 - ((z + 719468) / 146097) * 146097 := rfl
  obtain ⟨hy1, hy2, hy3, hy4, -⟩ :=
    cfd_yoe_core (cfdDoe z) (cfdDoe z / 365) (cfdYoe z) hdoe.1 hdoe.2 rfl rfl
  have hdoyq : cfdDoy z = cfdDoe z - (365 * cfdYoe z + cfdYoe z / 4 - cfdYoe z / 100) := rfl
  obtain ⟨hm1, hm2, hm3, hm4, -, -, -, hm8⟩ := cfd_month_core (cfdDoy z) (cfdMp z) (cfdD z)
    (by omega) (by omega) rfl rfl
  by_cases hmp : cfdMp z < 10
  · have hM : cfdM z = cfdMp z + 3 := by unfold cfdM; rw [if_pos hmp]
    have hMgt : ¬ (cfdM z ≤ 2) := by omega
    have hY : cfdY z = cfdYoe z + ((z + 719468) / 146097) * 400 := by
      unfold cfdY; rw [if_neg hMgt]
    have hMgt2 : cfdM z > 2 := by omega
    simp only [daysFromCivil, dfcEra, dfcYoe, dfcDoy, dfcY2, dfcMp, hMgt, hMgt2,
      if_true, if_false, hY]
    obtain ⟨hE1, -⟩ := cfd_era_core ((z + 719468) / 146097) (cfdYoe z) hy1 hy2
    rw [hE1,
      show cfdYoe z + (z + 719468) / 146097 * 400 - (z + 719468) / 146097 * 400 =
        cfdYoe z from by ring,
      show cfdM z - 3 = cfdMp z from by omega]
    omega
  · have hM : cfdM z = cfdMp z - 9 := by unfold cfdM; rw [if_neg hmp]
    have hMle : cfdM z ≤ 2 := by omega
    have hY : cfdY z = cfdYoe z + ((z + 719468) / 146097) * 400 + 1 := by
      unfold cfdY; rw [if_pos hMle]
    have hMle2 : ¬ (cfdM z > 2) := by omega
    simp only [daysFromCivil, dfcEra, dfcYoe, dfcDoy, dfcY2, dfcMp, hMle, hMle2,
      if_true, if_false, hY]
    rw [show cfdYoe z + (z + 719468) / 146097 * 400 + 1 - 1 =
        cfdYoe z + (z + 719468) / 146097 * 400 from by ring]
    obtain ⟨hE1, -⟩ := cfd_era_core ((z + 719468) / 146097) (cfdYoe z) hy1 hy2
    rw [hE1,
      show cfdYoe z + (z + 719468) / 146097 * 400 - (z + 719468) / 146097 * 400 =
        cfdYoe z from by ring,
      show cfdM z + 9 = cfdMp z from by omega]
    omega

set_option maxHeartbeats 8000000 in
theorem civilFromDays_valid (z : Int) :
    1 ≤ cfdM z ∧ cfdM z ≤ 12 ∧ 1 ≤ cfdD z ∧ cfdD z ≤ daysInMonth (cfdY z) (cfdM z) := by
  have hdoe : 0 ≤ cfdDoe z ∧ cfdDoe z ≤ 146096 := by unfold cfdDoe; omega
  obtain ⟨hy1, hy2, hy3, hy4, hy5⟩ :=
    cfd_yoe_core (cfdDoe z) (cfdDoe z / 365) (cfdYoe z) hdoe.1 hdoe.2 rfl rfl
  have hdoyq : cfdDoy z = cfdDoe z - (365 * cfdYoe z + cfdYoe z / 4 - cfdYoe z / 100) := rfl
  obtain ⟨hm1, hm2, hm3, hm4, hm5, hm6, hm7, hm8⟩ := cfd_month_core (cfdDoy z) (cfdMp z) (cfdD z)
    (by omega) (by omega) rfl rfl
  by_cases hmp : cfdMp z < 10
  · have hM : cfdM z = cfdMp z + 3 := by unfold cfdM; rw [if_pos hmp]
    refine ⟨by omega, by omega, by omega, ?_⟩
    unfold daysInMonth
    rw [if_neg (show ¬ (cfdM z = 2) by omega)]
    by_cases h30 : cfdM z = 4 ∨ cfdM z = 6 ∨ cfdM z = 9 ∨ cfdM z = 11
    · rw [if_pos h30]
      have : cfdMp z = 1 ∨ cfdMp z = 3 ∨ cfdMp z = 6 ∨ cfdMp z = 8 := by omega
      exact hm7 this
    · rw [if_neg h30]
      omega
  · have hM : cfdM z = cfdMp z - 9 := by unfold cfdM; rw [if_neg hmp]
    have hMle : cfdM z ≤ 2 := by omega
    have hY : cfdY z = cfdYoe z + ((z + 719468) / 146097) * 400 + 1 := by
      unfold cfdY; rw [if_pos hMle]
    refine ⟨by omega, by omega, by omega, ?_⟩
    by_cases hm2 : cfdM z = 2
    · have hmp11 : cfdMp z = 11 := by omega
      unfold daysInMonth
      rw [if_pos hm2]
      by_cases hd29 : cfdD z = 29
      · have h365 : cfdDoy z = 365 := hm6 hmp11 hd29
        have hleap := hy5 (by omega)
        rw [if_pos (show cfdY z % 4 = 0 ∧ (cfdY z % 100 ≠ 0 ∨ cfdY z % 400 = 0) by omega)]
        omega
      · have : cfdD z ≤ 28 := by
          have := hm5 hmp11
          omega
        by_cases hleap : cfdY z % 4 = 0 ∧ (cfdY z % 100 ≠ 0 ∨ cfdY z % 400 = 0)
        · rw [if_pos hleap]; omega
        · rw [if_neg hleap]; omega
    · unfold daysInMonth
      rw [if_neg hm2, if_neg (show ¬ (cfdM z = 4 ∨ cfdM z = 6 ∨ cfdM z = 9 ∨ cfdM z = 11) by omega)]
      omega

/-! ## Decimal digits -/

/-- The character of a decimal digit. -/
def digitChar (r : Nat) : Char :=
  match r with
  | 0 => '0' | 1 => '1' | 2 => '2' | 3 => '3' | 4 => '4'
  | 5 => '5' | 6 => '6' | 7 => '7' | 8 => '8' | _ => '9'

/-- Numeric value of a decimal digit character. -/
def digitVal (c : Char) : Nat := c.toNat - 48

/-- Fixed-width decimal rendering of `n` (the low `w` digits, zero padded). -/
def padDigits : Nat → Nat → List Char
  | 0, _ => []
  | w + 1, n => padDigits w (n / 10) ++ [digitChar (n % 10)]

/-- Value of a list of decimal digit characters (as `parseInt` reads them). -/
def parseDigits (cs : List Char) : Nat :=
  cs.foldl (fun a c => a * 10 + digitVal c) 0

theorem digitVal_digitChar (r : Nat) (h : r < 10) : digitVal (digitChar r) = r := by
  interval_cases r <;> rfl

theorem digitChar_isDigit (r : Nat) (h : r < 10) : (digitChar r).isDigit = true := by
  interval_cases r <;> rfl

theorem parseDigits_append (cs ds : List Char) :
    parseDigits (cs ++ ds) = ds.foldl (fun a c => a * 10 + digitVal c) (parseDigits cs) := by
  simp [parseDigits, List.foldl_append]

theorem parseDigits_padDigits (w n : Nat) (h : n < 10 ^ w) :
    parseDigits (padDigits w n) = n := by
  induction w generalizing n with
  | zero => simp at h; simp [h, padDigits, parseDigits]
  | succ w ih =>
    have h1 : n / 10 < 10 ^ w := by
      rw [Nat.div_lt_iff_lt_mul (by norm_num)]
      calc n < 10 ^ (w + 1) := h
      _ = 10 ^ w * 10 := by ring
    rw [padDigits, parseDigits_append, ih _ h1]
    simp [digitVal_digitChar (n % 10) (Nat.mod_lt n (by norm_num))]
    omega

theorem padDigits_all_isDigit (w n : Nat) : ∀ c ∈ padDigits w n, c.isDigit = true := by
  induction w generalizing n with
  | zero => simp [padDigits]
  | succ w ih =>
    intro c hc
    rw [padDigits] at hc
    rcases List.mem_append.1 hc with h | h
    · exact ih _ c h
    · simp at h
      subst h
      exact digitChar_isDigit _ (Nat.mod_lt n (by norm_num))

theorem padDigits_length (w n : Nat) : (padDigits w n).length = w := by
  induction w generalizing n with
  | zero => rfl
  | succ w ih => simp [padDigits, ih]

/-! ## The ISO date string format (ECMAScript Date Time String Format)

`formatDaysISO` renders the calendar-date part of `toISOString` (the
four-digit year for years 0–9999, the expanded `±YYYYYY` form outside
that range).  `parseISOCore`/`parseTimePartMs` parse the ECMA Date Time
String Format back to a time value: the mandated behaviour of
`new Date(string)` on conforming strings (with out-of-range calendar
components rejected).  Strings outside the mandated format fall to
engine-specific heuristics and are modelled as unparsable. -/

/-- The date part of `Date.prototype.toISOString` for a day number. -/
def formatDaysISO (z : Int) : String :=
  let y := cfdY z
  let md := padDigits 2 (cfdM z).toNat ++ '-' :: padDigits 2 (cfdD z).toNat
  if 0 ≤ y ∧ y ≤ 9999 then ⟨padDigits 4 y.toNat ++ '-' :: md⟩
  else if 9999 < y then ⟨'+' :: (padDigits 6 y.toNat ++ '-' :: md)⟩
  else ⟨'-' :: (padDigits 6 (-y).toNat ++ '-' :: md)⟩

/-- Parse `year(w digits)-MM-DD` at the head of a character list;
returns the three numbers and the remaining characters. -/
def parseYMD (w : Nat) (cs : List Char) : Option (Nat × Nat × Nat × List Char) :=
  let ys := cs.take w
  if ys.length = w ∧ ys.all Char.isDigit then
    match cs.drop w with
    | '-' :: r2 =>
      let ms := r2.take 2
      if ms.length = 2 ∧ ms.all Char.isDigit then
        match r2.drop 2 with
        | '-' :: r4 =>
          let ds := r4.take 2
          if ds.length = 2 ∧ ds.all Char.isDigit then
            some (parseDigits ys, parseDigits ms, parseDigits ds, r4.drop 2)
          else none
        | _ => none
      else none
    | _ => none
  else none

/-- Parse the calendar-date prefix `YYYY-MM-DD` / `±YYYYYY-MM-DD` of an
ISO date-time string; returns year, month, day and the rest. -/
def parseISOCore (cs : List Char) : Option (Int × Int × Int × List Char) :=
  if cs.head? = some '+' then
    (parseYMD 6 (cs.drop 1)).map (fun p => ((p.1 : Int), (p.2.1 : Int), (p.2.2.1 : Int), p.2.2.2))
  else if cs.head? = some '-' then
    (parseYMD 6 (cs.drop 1)).map (fun p => (-(p.1 : Int), (p.2.1 : Int), (p.2.2.1 : Int), p.2.2.2))
  else
    (parseYMD 4 cs).map (fun p => ((p.1 : Int), (p.2.1 : Int), (p.2.2.1 : Int), p.2.2.2))

/-- Parse the optional time-of-day part of an ISO string (after the
date): empty, or `THH:MM`, `THH:MM:SS`, `THH:MM:SS.sss`, each optionally
followed by `Z`.  Returns milliseconds within the day. -/
def parseTimePartMs (cs : List Char) : Option Int :=
  match cs with
  | [] => some 0
  | 'T' :: h1 :: h2 :: ':' :: n1 :: n2 :: rest =>
    if [h1, h2, n1, n2].all Char.isDigit then
      let hh := parseDigits [h1, h2]
      let nn := parseDigits [n1, n2]
      let fin := fun (ss ms : Nat) =>
        if (hh ≤ 23 ∧ nn ≤ 59 ∧ ss ≤ 59) ∨ (hh = 24 ∧ nn = 0 ∧ ss = 0 ∧ ms = 0) then
          some ((hh : Int) * 3600000 + (nn : Int) * 60000 + (ss : Int) * 1000 + (ms : Int))
        else none
      match rest with
      | [] => fin 0 0
      | ['Z'] => fin 0 0
      | ':' :: s1 :: s2 :: rest2 =>
        if [s1, s2].all Char.isDigit then
          let ss := parseDigits [s1, s2]
          match rest2 with
          | [] => fin ss 0
          | ['Z'] => fin ss 0
          | '.' :: a :: b :: c :: rest3 =>
            if [a, b, c].all Char.isDigit ∧ (rest3 = [] ∨ rest3 = ['Z']) then
              fin ss (parseDigits [a, b, c])
            else none
          | _ => none
        else none
      | _ => none
    else none
  | _ => none

/-- The time value (milliseconds since the epoch) of an ISO-format date
or date-time string, as `new Date(string)` computes it; `none` for
strings that are not conforming or denote an invalid calendar date. -/
def jsDateParseMs (s : String) : Option Int :=
  match parseISOCore s.data with
  | some (y, m, d, rest) =>
    if 1 ≤ m ∧ m ≤ 12 ∧ 1 ≤ d ∧ d ≤ daysInMonth y m then
      match parseTimePartMs rest with
      | some tms =>
        let ms := daysFromCivil y m d * 86400000 + tms
        if -8640000000000000 ≤ ms ∧ ms ≤ 8640000000000000 then some ms else none
      | none => none
    else none
  | none => none

theorem take_append_len {α : Type} (l1 l2 : List α) (n : Nat) (h : l1.length = n) :
    (l1 ++ l2).take n = l1 := by
  subst h; exact List.take_left _ _

theorem drop_append_len {α : Type} (l1 l2 : List α) (n : Nat) (h : l1.length = n) :
    (l1 ++ l2).drop n = l2 := by
  subst h; exact List.drop_left _ _

theorem all_isDigit_pad (w n : Nat) : (padDigits w n).all Char.isDigit = true := by
  rw [List.all_eq_true]
  exact padDigits_all_isDigit w n

theorem parseYMD_format (w a m d : Nat) (rest : List Char)
    (ha : a < 10 ^ w) (hm : m < 100) (hd : d < 100) :
    parseYMD w (padDigits w a ++ '-' :: (padDigits 2 m ++ '-' :: (padDigits 2 d ++ rest))) =
      some (a, m, d, rest) := by
  have t1 := take_append_len (padDigits w a) ('-' :: (padDigits 2 m ++ '-' :: (padDigits 2 d ++ rest))) w (padDigits_length w a)
  have t2 := drop_append_len (padDigits w a) ('-' :: (padDigits 2 m ++ '-' :: (padDigits 2 d ++ rest))) w (padDigits_length w a)
  have t3 := take_append_len (padDigits 2 m) ('-' :: (padDigits 2 d ++ rest)) 2 (padDigits_length 2 m)
  have t4 := drop_append_len (padDigits 2 m) ('-' :: (padDigits 2 d ++ rest)) 2 (padDigits_length 2 m)
  have t5 := take_append_len (padDigits 2 d) rest 2 (padDigits_length 2 d)
  have t6 := drop_append_len (padDigits 2 d) rest 2 (padDigits_length 2 d)
  unfold parseYMD
  simp only [t1, t2, t3, t4, t5, t6]
  rw [if_pos ⟨padDigits_length w a, all_isDigit_pad w a⟩]
  rw [if_pos ⟨padDigits_length 2 m, all_isDigit_pad 2 m⟩]
  rw [if_pos ⟨padDigits_length 2 d, all_isDigit_pad 2 d⟩]
  rw [parseDigits_padDigits w a ha, parseDigits_padDigits 2 m hm, parseDigits_padDigits 2 d hd]

theorem daysInMonth_le (y m : Int) : daysInMonth y m ≤ 31 := by
  unfold daysInMonth
  split_ifs <;> omega

theorem isDigit_ne_sign {c : Char} (h : c.isDigit = true) : c ≠ '+' ∧ c ≠ '-' := by
  constructor <;> rintro rfl <;> simp [Char.isDigit] at h

theorem cfdY_small (z : Int) (h1 : -100000000 ≤ z) (h2 : z ≤ 100000000) :
    -1000000 < cfdY z ∧ cfdY z < 1000000 := by
  have hdoe : 0 ≤ cfdDoe z ∧ cfdDoe z ≤ 146096 := by unfold cfdDoe; omega
  obtain ⟨hy1, hy2, -, -, -⟩ :=
    cfd_yoe_core (cfdDoe z) (cfdDoe z / 365) (cfdYoe z) hdoe.1 hdoe.2 rfl rfl
  have hera : -700 ≤ (z + 719468) / 146097 ∧ (z + 719468) / 146097 ≤ 700 := by omega
  unfold cfdY
  split_ifs <;> omega

set_option maxHeartbeats 2000000 in
theorem jsDateParseMs_format (z : Int) (h1 : -100000000 ≤ z) (h2 : z ≤ 100000000) :
    jsDateParseMs (formatDaysISO z) = some (z * 86400000) := by
  obtain ⟨hm1, hm2, hd1, hd2⟩ := civilFromDays_valid z
  have hrt := civilFromDays_daysFromCivil z
  have hyb := cfdY_small z h1 h2
  have hd31 : cfdD z ≤ 31 := le_trans hd2 (daysInMonth_le _ _)
  have hmN : ((cfdM z).toNat : Int) = cfdM z := Int.toNat_of_nonneg (by omega)
  have hdN : ((cfdD z).toNat : Int) = cfdD z := Int.toNat_of_nonneg (by omega)
  have hmlt : (cfdM z).toNat < 100 := by omega
  have hdlt : (cfdD z).toNat < 100 := by omega
  have hrange : -8640000000000000 ≤ z * 86400000 ∧ z * 86400000 ≤ 8640000000000000 := by
    constructor <;> nlinarith
  have hmd : padDigits 2 (cfdM z).toNat ++ '-' :: padDigits 2 (cfdD z).toNat
      = padDigits 2 (cfdM z).toNat ++ '-' :: (padDigits 2 (cfdD z).toNat ++ ([] : List Char)) := by
    simp
  unfold formatDaysISO
  by_cases hy : 0 ≤ cfdY z ∧ cfdY z ≤ 9999
  · rw [if_pos hy]
    have hyN : ((cfdY z).toNat : Int) = cfdY z := Int.toNat_of_nonneg hy.1
    have hylt : (cfdY z).toNat < 10 ^ 4 := by omega
    unfold jsDateParseMs parseISOCore
    have hcons : ∃ c cs, padDigits 4 (cfdY z).toNat = c :: cs ∧ c.isDigit = true := by
      rcases hpd : padDigits 4 (cfdY z).toNat with - | ⟨c, cs⟩
      · have := padDigits_length 4 (cfdY z).toNat
        rw [hpd] at this
        simp at this
      · exact ⟨c, cs, rfl, padDigits_all_isDigit 4 _ c (by rw [hpd]; exact List.mem_cons_self _ _)⟩
    obtain ⟨c, cs, hpd, hdig⟩ := hcons
    obtain ⟨hne1, hne2⟩ := isDigit_ne_sign hdig
    rw [hpd]
    rw [if_neg (by simp [hne1]), if_neg (by simp [hne2])]
    rw [← hpd, hmd, parseYMD_format 4 (cfdY z).toNat (cfdM z).toNat (cfdD z).toNat [] hylt hmlt hdlt]
    simp only [Option.map_some']
    rw [hmN, hdN, hyN]
    rw [if_pos ⟨hm1, hm2, hd1, hd2⟩]
    simp only [parseTimePartMs]
    rw [hrt]
    simp only [add_zero]
    rw [if_pos hrange]
  · rw [if_neg hy]
    by_cases hy2 : 9999 < cfdY z
    · rw [if_pos hy2]
      have hyN : ((cfdY z).toNat : Int) = cfdY z := Int.toNat_of_nonneg (by omega)
      have hylt : (cfdY z).toNat < 10 ^ 6 := by omega
      unfold jsDateParseMs parseISOCore
      rw [if_pos (show (('+' :: (padDigits 6 (cfdY z).toNat ++ '-' ::
          (padDigits 2 (cfdM z).toNat ++ '-' :: padDigits 2 (cfdD z).toNat))).head? = some '+')
          from rfl)]
      rw [show ('+' :: (padDigits 6 (cfdY z).toNat ++ '-' ::
          (padDigits 2 (cfdM z).toNat ++ '-' :: padDigits 2 (cfdD z).toNat))).drop 1
          = padDigits 6 (cfdY z).toNat ++ '-' ::
            (padDigits 2 (cfdM z).toNat ++ '-' :: padDigits 2 (cfdD z).toNat) from rfl]
      rw [hmd, parseYMD_format 6 (cfdY z).toNat (cfdM z).toNat (cfdD z).toNat [] hylt hmlt hdlt]
      simp only [Option.map_some']
      rw [hmN, hdN, hyN]
      rw [if_pos ⟨hm1, hm2, hd1, hd2⟩]
      simp only [parseTimePartMs]
      rw [hrt]
      simp only [add_zero]
      rw [if_pos hrange]
    · rw [if_neg hy2]
      have hyneg : cfdY z < 0 := by omega
      have hyN : ((-cfdY z).toNat : Int) = -cfdY z := Int.toNat_of_nonneg (by omega)
      have hylt : (-cfdY z).toNat < 10 ^ 6 := by omega
      unfold jsDateParseMs parseISOCore
      rw [if_neg (show ¬ (('-' :: (padDigits 6 (-cfdY z).toNat ++ '-' ::
          (padDigits 2 (cfdM z).toNat ++ '-' :: padDigits 2 (cfdD z).toNat))).head? = some '+')
          from by simp)]
      rw [if_pos (show (('-' :: (padDigits 6 (-cfdY z).toNat ++ '-' ::
          (padDigits 2 (cfdM z).toNat ++ '-' :: padDigits 2 (cfdD z).toNat))).head? = some '-')
          from rfl)]
      rw [show ('-' :: (padDigits 6 (-cfdY z).toNat ++ '-' ::
          (padDigits 2 (cfdM z).toNat ++ '-' :: padDigits 2 (cfdD z).toNat))).drop 1
          = padDigits 6 (-cfdY z).toNat ++ '-' ::
            (padDigits 2 (cfdM z).toNat ++ '-' :: padDigits 2 (cfdD z).toNat) from rfl]
      rw [hmd, parseYMD_format 6 (-cfdY z).toNat (cfdM z).toNat (cfdD z).toNat [] hylt hmlt hdlt]
      simp only [Option.map_some']
      rw [hmN, hdN, hyN]
      rw [show -(-cfdY z) = cfdY z from by ring]
      rw [if_pos ⟨hm1, hm2, hd1, hd2⟩]
      simp only [parseTimePartMs]
      rw [hrt]
      simp only [add_zero]
      rw [if_pos hrange]

/-! ## The date parser of the issue mapper (`parseDate`) -/

/-- ECMAScript `MakeDay`/`MakeTime`/`TimeClip` for the component
constructor `new Date(y, monthIndex, day, hours, minutes)`: the time
value in milliseconds, `none` when outside the clipped range (an
`Invalid Date`).  Years 0–99 mean 1900–1999. -/
def jsMakeDayMs (y monthIdx day hh mi : Int) : Option Int :=
  let y1 := if 0 ≤ y ∧ y ≤ 99 then y + 1900 else y
  let ym := y1 + monthIdx / 12
  let mo := monthIdx % 12
  let ms := daysFromCivil ym (mo + 1) day * 86400000 + hh * 3600000 + mi * 60000
  if -8640000000000000 ≤ ms ∧ ms ≤ 8640000000000000 then some ms else none

/-- Take a maximal run of decimal digits with the rest of the input. -/
def digitRun (cs : List Char) : List Char × List Char :=
  (cs.takeWhile Char.isDigit, cs.dropWhile Char.isDigit)

/-- Matcher for `/^(\d{1,2})\/(\d{1,2})\/(\d{2})\s+(\d{1,2}):(\d{2})$/`
(numeric day/month with a two-digit year and a time), returning
`(day, month, year, hours, minutes)`. -/
def matchNumericShort (cs : List Char) : Option (Nat × Nat × Nat × Nat × Nat) :=
  let (g1, r1) := digitRun cs
  if g1.length = 0 ∨ 2 < g1.length then none else
  match r1 with
  | '/' :: r2 =>
    let (g2, r3) := digitRun r2
    if g2.length = 0 ∨ 2 < g2.length then none else
    match r3 with
    | '/' :: r4 =>
      let (g3, r5) := digitRun r4
      if g3.length ≠ 2 then none else
      let ws := r5.takeWhile isWS
      let r6 := r5.dropWhile isWS
      if ws.length = 0 then none else
      let (g4, r7) := digitRun r6
      if g4.length = 0 ∨ 2 < g4.length then none else
      match r7 with
      | ':' :: r8 =>
        let (g5, r9) := digitRun r8
        if g5.length = 2 ∧ r9 = [] then
          some (parseDigits g1, parseDigits g2, parseDigits g3, parseDigits g4, parseDigits g5)
        else none
      | _ => none
    | _ => none
  | _ => none

/-- Is a character an ASCII letter (`[A-Za-z]`)? -/
def isAsciiAlpha (c : Char) : Bool :=
  ('A' ≤ c && c ≤ 'Z') || ('a' ≤ c && c ≤ 'z')

/-- Matcher for `/^(\d{1,2})\/([A-Za-z]{3})\/(\d{2,4})\s+(\d{1,2}):(\d{2})$/`
(textual three-letter month), returning
`(day, monthName, yearDigits, hours, minutes)`; the year keeps its digit
count so the caller can apply the two-digit-year rule. -/
def matchJiraFormat (cs : List Char) : Option (Nat × String × List Char × Nat × Nat) :=
  let (g1, r1) := digitRun cs
  if g1.length = 0 ∨ 2 < g1.length then none else
  match r1 with
  | '/' :: a :: b :: c :: '/' :: r4 =>
    if (isAsciiAlpha a && isAsciiAlpha b && isAsciiAlpha c) = true then
      let (g3, r5) := digitRun r4
      if g3.length < 2 ∨ 4 < g3.length then none else
      let ws := r5.takeWhile isWS
      let r6 := r5.dropWhile isWS
      if ws.length = 0 then none else
      let (g4, r7) := digitRun r6
      if g4.length = 0 ∨ 2 < g4.length then none else
      match r7 with
      | ':' :: r8 =>
        let (g5, r9) := digitRun r8
        if g5.length = 2 ∧ r9 = [] then
          some (parseDigits g1, ⟨[a, b, c]⟩, g3, parseDigits g4, parseDigits g5)
        else none
      | _ => none
    else none
  | _ => none

/-- Matcher for `/^(\d{1,2})\/(\d{1,2})\/(\d{4})$/` (day/month with a
four-digit year, no time), returning `(day, month, year)`. -/
def matchSlashFormat (cs : List Char) : Option (Nat × Nat × Nat) :=
  let (g1, r1) := digitRun cs
  if g1.length = 0 ∨ 2 < g1.length then none else
  match r1 with
  | '/' :: r2 =>
    let (g2, r3) := digitRun r2
    if g2.length = 0 ∨ 2 < g2.length then none else
    match r3 with
    | '/' :: r4 =>
      let (g3, r5) := digitRun r4
      if g3.length = 4 ∧ r5 = [] then
        some (parseDigits g1, parseDigits g2, parseDigits g3)
      else none
    | _ => none
  | _ => none

/-- Test for the prefix `/^\d{4}-\d{2}-\d{2}/`. -/
def isoPrefixTest (cs : List Char) : Bool :=
  match cs with
  | y1 :: y2 :: y3 :: y4 :: '-' :: m1 :: m2 :: '-' :: d1 :: d2 :: _ =>
    [y1, y2, y3, y4, m1, m2, d1, d2].all Char.isDigit
  | _ => false

/-- The month-name table of the date parser (Portuguese and English
three-letter abbreviations, case-sensitive). -/
def monthMap : List (String × Nat) :=
  [("Jan", 0), ("Fev", 1), ("Feb", 1), ("Mar", 2), ("Abr", 3), ("Apr", 3),
   ("Mai", 4), ("May", 4), ("Jun", 5), ("Jul", 6), ("Ago", 7), ("Aug", 7),
   ("Set", 8), ("Sep", 8), ("Out", 9), ("Oct", 9), ("Nov", 10), ("Dez", 11),
   ("Dec", 11)]

/-- `monthMap[month] || 0`. -/
def monthMapLookup (s : String) : Nat :=
  (((monthMap.find? (fun p => p.1 == s)).map (fun p => p.2)).getD 0)

/-- The calendar-date string (`toISOString` date part) of a time value. -/
def msToDateString (ms : Int) : String := formatDaysISO (ms / 86400000)

/-- The `dd/MM/yy HH:mm` branch of `parseDate`. -/
def tryNumericShort (cs : List Char) : Option String :=
  match matchNumericShort cs with
  | some (d, m, y, hh, mi) =>
    (jsMakeDayMs (2000 + (y : Int)) ((m : Int) - 1) (d : Int) (hh : Int) (mi : Int)).map
      msToDateString
  | none => none

/-- The `dd/Mon/yy HH:mm` branch of `parseDate`. -/
def tryJiraFormat (cs : List Char) : Option String :=
  match matchJiraFormat cs with
  | some (d, mon, ydigits, hh, mi) =>
    let yv := parseDigits ydigits
    let fullYear : Int := if ydigits.length = 2 then 2000 + (yv : Int) else (yv : Int)
    (jsMakeDayMs fullYear (monthMapLookup mon : Int) (d : Int) (hh : Int) (mi : Int)).map
      msToDateString
  | none => none

/-- The ISO branch of `parseDate`: a `\d{4}-\d{2}-\d{2}` prefix sends the
whole string to the generic date constructor. -/
def tryISOFormat (s : String) : Option String :=
  if isoPrefixTest s.data then (jsDateParseMs s).map msToDateString else none

/-- The `dd/MM/yyyy` branch of `parseDate`. -/
def trySlashFormat (cs : List Char) : Option String :=
  match matchSlashFormat cs with
  | some (d, m, y) =>
    (jsMakeDayMs (y : Int) ((m : Int) - 1) (d : Int) 0 0).map msToDateString
  | none => none

/-- The fallback branch of `parseDate`: the generic date constructor on
the raw string. -/
def tryGenericDate (s : String) : Option String :=
  (jsDateParseMs s).map msToDateString

/-- `parseDate` of the issue mapper: tries, in order, the
`dd/MM/yy HH:mm`, `dd/Mon/yy[yy] HH:mm`, ISO, and `dd/MM/yyyy` formats,
then the generic constructor; a branch whose constructed date is invalid
falls through to the next.  A null or empty input is `null`. -/
def parseDate (x : Option String) : Option String :=
  match x with
  | none => none
  | some s =>
    if s = "" then none
    else
      (tryNumericShort s.data).orElse fun _ =>
      (tryJiraFormat s.data).orElse fun _ =>
      (tryISOFormat s).orElse fun _ =>
      (trySlashFormat s.data).orElse fun _ =>
      tryGenericDate s

/-- `calculateLeadTime`: the ceiling of the day difference between two
date strings; `null` when either string is absent or unparsable or the
difference is negative. -/
def calculateLeadTime (createdDate resolvedDate : Option String) : Option Int :=
  match createdDate, resolvedDate with
  | some cs, some rs =>
    match jsDateParseMs cs, jsDateParseMs rs with
    | some cms, some rms =>
      let diffDays := -((-(rms - cms)) / 86400000)
      if 0 ≤ diffDays then some diffDays else none
    | _, _ => none
  | _, _ => none

/-! ## The duration parser (`parseTimeValue`) -/

/-- `Math.round`: round half towards positive infinity. -/
def jsRound (x : ℚ) : ℚ := (⌊x + 1 / 2⌋ : Int)

/-- Round to two decimals: `Math.round(x * 100) / 100`. -/
def round2 (x : ℚ) : ℚ := jsRound (x * 100) / 100

/-- `parseFloat`: parse the longest numeric-literal prefix (sign,
decimal digits with an optional fraction, optional exponent); `none`
models `NaN`. -/
def jsParseFloat (cs : List Char) : Option ℚ :=
  let sr : ℚ × List Char :=
    match cs with
    | '+' :: t => (1, t)
    | '-' :: t => (-1, t)
    | _ => (1, cs)
  let (ip, r1) := digitRun sr.2
  let fr : List Char × List Char :=
    match r1 with
    | '.' :: t => digitRun t
    | _ => ([], r1)
  if ip = [] ∧ fr.1 = [] then none
  else
    let mant : ℚ := (parseDigits ip : ℚ) + (parseDigits fr.1 : ℚ) / (10 : ℚ) ^ fr.1.length
    let expv : Int :=
      match fr.2 with
      | 'e' :: t =>
        (match t with
         | '+' :: t2 => ((parseDigits (digitRun t2).1 : Int))
         | '-' :: t2 => (-(parseDigits (digitRun t2).1 : Int))
         | _ => ((parseDigits (digitRun t).1 : Int)))
      | 'E' :: t =>
        (match t with
         | '+' :: t2 => ((parseDigits (digitRun t2).1 : Int))
         | '-' :: t2 => (-(parseDigits (digitRun t2).1 : Int))
         | _ => ((parseDigits (digitRun t).1 : Int)))
      | _ => 0
    some (sr.1 * mant * (10 : ℚ) ^ expv)

/-- One attempt of the token regex `(\d+(?:\.\d+)?)\s*[unit]` anchored at
the head of the input: a digit run, an optional fraction, optional
whitespace, then a unit character. -/
def tokenAt (unit : Char → Bool) (cs : List Char) : Option ℚ :=
  let (ds, r1) := digitRun cs
  if ds = [] then none
  else
    let vr : ℚ × List Char :=
      match r1 with
      | '.' :: t =>
        let (fs, r2) := digitRun t
        if fs = [] then ((parseDigits ds : ℚ), r1)
        else ((parseDigits ds : ℚ) + (parseDigits fs : ℚ) / (10 : ℚ) ^ fs.length, r2)
      | _ => ((parseDigits ds : ℚ), r1)
    match vr.2.dropWhile isWS with
    | u :: _ => if unit u then some vr.1 else none
    | [] => none

/-- Leftmost match of the token regex over the whole input (the
JavaScript `String.prototype.match` search). -/
def findToken (unit : Char → Bool) (cs : List Char) : Option ℚ :=
  (List.range (cs.length + 1)).findSome? (fun i => tokenAt unit (cs.drop i))

/-- `parseTimeValue`: a value whose trimmed text has a parsable numeric
prefix is taken as hours, or as seconds (converted to hours) when above
1000; otherwise `d`/`h`/`m` tokens are summed (8-hour days); zero or no
tokens is `null`. -/
def parseTimeValue (value : Option String) : Option ℚ :=
  match value with
  | none => none
  | some v =>
    if v = "" ∨ trimS v = "" then none
    else
      let trimmed := (trimS v).data
      match jsParseFloat trimmed with
      | some numericOnly =>
        if numericOnly > 1000 then some (round2 (numericOnly / 3600))
        else some numericOnly
      | none =>
        let dayv := (findToken (fun c => c == 'd' || c == 'D') trimmed).getD 0 * 8
        let hourv := (findToken (fun c => c == 'h' || c == 'H') trimmed).getD 0
        let minv := (findToken (fun c => c == 'm' || c == 'M') trimmed).getD 0 / 60
        let totalHours := dayv + hourv + minv
        if totalHours > 0 then some (round2 totalHours) else none

/-! ## System-name normalization -/

/-- The synonym table collapsing historical system renamings. -/
def systemMappings : List (String × String) :=
  [("Tesouraria Nacional", "Tesouraria"),
   ("Rebaixa de Preços", "Rebaixa de Preço"),
   ("Automação CD", "Sorter")]

/-- `normalizeSystemName`: trim and apply the synonym table; falsy input
(null or empty) is `null`. -/
def normalizeSystemName (system : Option String) : Option String :=
  match system with
  | none => none
  | some s =>
    if s = "" then none
    else
      let normalized := trimS s
      some ((((systemMappings.find? (fun p => p.1 == normalized)).map
        (fun p => p.2))).getD normalized)

/-- `extractSystemFromSummary`: the contents of a leading bracketed tag
`[...]`, trimmed and normalized; otherwise `null`. -/
def extractSystemFromSummary (summary : Option String) : Option String :=
  match summary with
  | none => none
  | some s =>
    if s = "" then none
    else
      match s.data with
      | '[' :: rest =>
        let inner := rest.takeWhile (fun c => c ≠ ']')
        match rest.dropWhile (fun c => c ≠ ']') with
        | ']' :: _ =>
          if inner = [] then none
          else normalizeSystemName (some (trimS ⟨inner⟩))
        | _ => none
      | _ => none

/-! ## The version comparator -/

/-- Append-free accumulation of the values of the maximal digit runs of
a string (`String.prototype.match(/(\d+)/g)` followed by `parseInt`). -/
def digitRunsAux : List Char → List Nat → Option Nat → List Nat
  | [], acc, none => acc
  | [], acc, some r => acc ++ [r]
  | c :: cs, acc, cur =>
    if c.isDigit then
      digitRunsAux cs acc (some ((cur.getD 0) * 10 + digitVal c))
    else
      match cur with
      | none => digitRunsAux cs acc none
      | some r => digitRunsAux cs (acc ++ [r]) none

/-- `extractVersionNumber`: the digit runs of a version string as
numbers, or `[0]` when there are none. -/
def extractVersionNumber (version : String) : List Nat :=
  match digitRunsAux version.data [] none with
  | [] => [0]
  | l => l

/-- First nonzero entry of a number sequence (0 if none): the value an
exhausted left operand is compared against in `compareNumLists`. -/
def firstNonzero : List Nat → Int
  | [] => 0
  | b :: bs => if b ≠ 0 then (b : Int) else firstNonzero bs

/-- Element-by-element comparison of two number sequences, missing
trailing elements read as 0; returns the first nonzero difference. -/
def compareNumLists : List Nat → List Nat → Int
  | [], ys => -firstNonzero ys
  | a :: as, [] => if a ≠ 0 then (a : Int) else compareNumLists as []
  | a :: as, b :: bs => if a ≠ b then (a : Int) - (b : Int) else compareNumLists as bs

/-- `compareVersions`: positive when `a` is the higher version. -/
def compareVersions (a b : String) : Int :=
  compareNumLists (extractVersionNumber a) (extractVersionNumber b)

/-- `getHighestVersion`: reduce a list of version strings to the one the
comparator ranks highest, ties keeping the earlier element. -/
def getHighestVersion (versions : List String) : Option String :=
  match versions with
  | [] => none
  | [v] => some v
  | v :: vs => some (vs.foldl (fun highest current =>
      if compareVersions current highest > 0 then current else highest) v)

/-! ## The tabular parser (`parseCSV`) -/

/-- A parsed CSV row: header name → raw value.  Keys are unique
(constructed by `objSet`, mirroring JavaScript object assignment). -/
abbrev CSVRow : Type := List (String × String)

/-- `row[k]`: the value stored under a key, if any. -/
def rowGet (row : CSVRow) (k : String) : Option String :=
  (row.find? (fun p => p.1 == k)).map (fun p => p.2)

/-- `row[k] = v`: JavaScript object assignment — replace the value in
place if the key exists, else append the pair. -/
def objSet (row : CSVRow) (k v : String) : CSVRow :=
  if row.any (fun p => p.1 == k) then
    row.map (fun p => if p.1 == k then (k, v) else p)
  else row ++ [(k, v)]

/-- Split text on `/\r?\n/` (newline, optionally preceded by a carriage
return). -/
def splitLinesAux : List Char → List Char → List (List Char)
  | [], cur => [cur.reverse]
  | '\r' :: '\n' :: rest, cur => cur.reverse :: splitLinesAux rest []
  | '\n' :: rest, cur => cur.reverse :: splitLinesAux rest []
  | c :: rest, cur => splitLinesAux rest (c :: cur)

/-- The lines of the input text. -/
def splitLines (cs : List Char) : List (List Char) := splitLinesAux cs []

/-- The state machine of `parseCSVLine`: double quotes toggle quoting,
a doubled quote inside quotes emits one quote, an unquoted comma ends
the field; every field is trimmed as it is pushed. -/
def csvFields : List Char → Bool → List Char → List String → List String
  | [], _, cur, acc => acc ++ [⟨trimL cur⟩]
  | '"' :: '"' :: rest, true, cur, acc => csvFields rest true (cur ++ ['"']) acc
  | '"' :: rest, inQ, cur, acc => csvFields rest (!inQ) cur acc
  | ',' :: rest, false, cur, acc => csvFields rest false [] (acc ++ [⟨trimL cur⟩])
  | c :: rest, inQ, cur, acc => csvFields rest inQ (cur ++ [c]) acc

/-- `parseCSVLine`: split one line into trimmed, unquoted fields. -/
def parseCSVLine (line : List Char) : List String := csvFields line false [] []

/-- The non-blank lines of the CSV text (the
`split(/\r?\n/).filter(line => line.trim())` step). -/
def nonblankLines (text : String) : List (List Char) :=
  (splitLines text.data).filter (fun l => ¬ trimL l = [])

/-- Disambiguate duplicate header names by suffixing `_2`, `_3`, … to
repeated occurrences; every header is trimmed first. -/
def disambiguate : List String → List String → List String
  | _, [] => []
  | seen, h :: rest =>
    let t := trimS h
    let k := seen.count t
    (if k = 0 then t else t ++ "_" ++ toString (k + 1)) ::
      disambiguate (seen ++ [t]) rest

/-- Build one row object: `headers.forEach((h, i) => row[h] = values[i] || '')`. -/
def buildRow (headers values : List String) : CSVRow :=
  (headers.enum).foldl (fun r p => objSet r p.2 (values.getD p.1 "")) []

/-- Is a parsed data line degenerate (zero fields, or one empty field)? -/
def degenerateLine (values : List String) : Prop :=
  values = [] ∨ values = [""]

instance (values : List String) : Decidable (degenerateLine values) := by
  unfold degenerateLine
  infer_instance

/-- `parseCSV`: parse the CSV text into rows keyed by the
(duplicate-disambiguated) headers; fewer than two non-blank lines give
no rows, and degenerate data lines are skipped. -/
def parseCSV (text : String) : List CSVRow :=
  let lines := nonblankLines text
  if lines.length < 2 then []
  else
    let headers := disambiguate [] (parseCSVLine (lines.headI))
    (lines.tail.filter (fun l => ¬ degenerateLine (parseCSVLine l))).map
      (fun l => buildRow headers (parseCSVLine l))

/-! ## The schema resolver -/

/-- The alias table mapping canonical fields to the accepted header
names, in preference order. -/
def COLUMN_MAPPINGS : List (String × List String) :=
  [("issue_key", ["Chave da item", "Chave do item", "Issue Key", "Issue key", "Key", "key",
      "Issue ID", "issue_key"]),
   ("summary", ["Resumo", "Summary", "summary", "Título", "Title", "Description"]),
   ("issue_type", ["Tipo de item", "Tipo do item", "Issue Type", "Issue type", "Type", "type",
      "issue_type", "Tipo"]),
   ("status", ["Status", "status", "Estado", "State"]),
   ("project", ["Project", "project", "Projeto", "Project Key", "Project key"]),
   ("fix_version", ["Versões corrigidas", "Fix Version", "Fix version", "Fix Version/s",
      "Versão", "Version", "fix_version"]),
   ("created_date", ["Criado", "Created", "created", "Created Date", "Data de Criação",
      "created_date"]),
   ("resolved_date", ["Resolvido", "Resolved", "resolved", "Resolved Date", "Resolution Date",
      "Data de Resolução", "resolved_date"]),
   ("system", ["Campo personalizado (Núcleo)", "Núcleo", "System", "system", "Sistema",
      "Component", "Components"]),
   ("original_estimate", ["Σ da Estimativa Original", "Original Estimate", "Estimativa Original",
      "original_estimate"]),
   ("time_spent", ["Σ de Tempo Gasto", "Time Spent", "Tempo Gasto", "time_spent"]),
   ("parent_key", ["Chave pai", "Parent Key", "parent_key"])]

/-- The alias list for a canonical field (the field name itself when the
table has no entry). -/
def aliasesFor (columnKey : String) : List String :=
  (((COLUMN_MAPPINGS.find? (fun p => p.1 == columnKey)).map (fun p => p.2))).getD [columnKey]

/-- `findColumn`: the first alias whose value is present and non-empty. -/
def findColumn (row : CSVRow) (columnKey : String) : Option String :=
  (aliasesFor columnKey).findSome? (fun name =>
    match rowGet row name with
    | some v => if v ≠ "" then some v else none
    | none => none)

/-- Does a row key match an alias exactly or with a numeric duplicate
suffix (`alias` or `alias_<digits>`)? -/
def matchesAlias (key name : String) : Bool :=
  key == name ||
  (decide (name.data.length + 1 < key.data.length) &&
   decide (key.data.take name.data.length = name.data) &&
   decide (key.data.get? name.data.length = some '_') &&
   (key.data.drop (name.data.length + 1)).all Char.isDigit)

/-- `findAllColumnsValues`: the trimmed non-empty values of every column
matching an alias of the canonical field (including duplicate-suffixed
columns), deduplicated keeping first occurrences. -/
def findAllColumnsValues (row : CSVRow) (columnKey : String) : List String :=
  jsUnique ((row.filter (fun p =>
    (aliasesFor columnKey).any (fun name => matchesAlias p.1 name) &&
      !(p.2 == "") && !(trimS p.2 == ""))).map (fun p => trimS p.2))

/-! ## The issue mapper (`mapCSVToIssues`) -/

/-- The canonical issue record produced by the mapper. -/
structure ParsedIssue where
  issue_key : String
  summary : Option String
  issue_type : Option String
  status : Option String
  project : Option String
  system : Option String
  fix_version : Option String
  created_date : Option String
  resolved_date : Option String
  lead_time_days : Option Int
  original_estimate : Option ℚ
  time_spent : Option ℚ
  parent_key : Option String
deriving Repr, DecidableEq

/-- Map one row (whose issue key was resolved) to a `ParsedIssue`. -/
def buildIssue (row : CSVRow) (issueKey : String) : ParsedIssue :=
  let createdDate := parseDate (findColumn row "created_date")
  let resolvedDate := parseDate (findColumn row "resolved_date")
  let fixVersions := findAllColumnsValues row "fix_version"
  let summary := findColumn row "summary"
  { issue_key := trimS issueKey
    summary := summary
    issue_type := findColumn row "issue_type"
    status := findColumn row "status"
    project := findColumn row "project"
    system := extractSystemFromSummary summary
    fix_version := getHighestVersion (fixVersions.filter (fun v => ¬ v = ""))
    created_date := createdDate
    resolved_date := resolvedDate
    lead_time_days := calculateLeadTime createdDate resolvedDate
    original_estimate := parseTimeValue (findColumn row "original_estimate")
    time_spent := parseTimeValue (findColumn row "time_spent")
    parent_key := findColumn row "parent_key" }

/-- The mapper loop: a row without a resolvable issue key contributes a
structural error (named by its 1-based spreadsheet line, header = 1);
every other row contributes exactly one issue. -/
def mapCSVToIssuesAux : Nat → List CSVRow → List ParsedIssue × List String
  | _, [] => ([], [])
  | i, row :: rest =>
    let r := mapCSVToIssuesAux (i + 1) rest
    match findColumn row "issue_key" with
    | none => (r.1, ("Linha " ++ toString (i + 2) ++ ": Chave do item não encontrada") :: r.2)
    | some issueKey => (buildIssue row issueKey :: r.1, r.2)

/-- `mapCSVToIssues`: the issues and errors of a parsed row sequence. -/
def mapCSVToIssues (rows : List CSVRow) : List ParsedIssue × List String :=
  mapCSVToIssuesAux 0 rows

/-! ## The version lifecycle classifier
(`getOpenVersionsAndFilterIssues`, and the classification used by the
`debugVersions` script) -/

/-- An issue as the lifecycle filter sees it: its `fix_version` and an
opaque payload standing for every other field. -/
structure Issue where
  fix_version : Option String
  payload : Nat
deriving Repr, DecidableEq

/-- The outcome of the release-description store read: the awaited call
threw, or returned a response whose `data` is a row list or null. -/
inductive StoreResult where
  | thrown : StoreResult
  | ok : Option (List (String × Option String)) → StoreResult

/-- `new Map(rows).get(name)`: the description stored under a release
name (later duplicates win), `none` when the name has no row. -/
def jsMapGet (rows : List (String × Option String)) (k : String) : Option (Option String) :=
  (rows.reverse.find? (fun p => p.1 == k)).map (fun p => p.2)

/-- The open-release test of `getOpenVersionsAndFilterIssues` applied to
a lookup result: `!description || description.trim() === ''`. -/
def isOpenDesc : Option (Option String) → Bool
  | none => true
  | some none => true
  | some (some d) => d == "" || trimS d == ""

/-- The classifier as a function of an arbitrary release lookup. -/
def isOpen (lookup : String → Option (Option String)) (name : String) : Bool :=
  isOpenDesc (lookup name)

/-- The distinct non-empty `fix_version`s referenced by a list of issues
(`[...new Set(issues.map(i => i.fix_version).filter(Boolean))]`). -/
def uniqueVersionsOf (issues : List Issue) : List String :=
  jsUnique (((issues.map Issue.fix_version).filterMap id).filter (fun s => ¬ s = ""))

/-- The referenced releases classified open against a store response. -/
def openVersionsOf (data : Option (List (String × Option String))) (issues : List Issue) :
    List String :=
  (uniqueVersionsOf issues).filter (fun name => isOpenDesc (jsMapGet (data.getD []) name))

/-- `getOpenVersionsAndFilterIssues`: collect the distinct non-empty
`fix_version`s of the issues; with none, or when the store read throws,
return the issues unchanged with no open versions; otherwise classify
each referenced release by its stored description and drop the issues of
open releases. -/
def getOpenVersionsAndFilterIssues (store : StoreResult) (issues : List Issue) :
    List Issue × List String :=
  if uniqueVersionsOf issues = [] then (issues, [])
  else
    match store with
    | .thrown => (issues, [])
    | .ok data =>
      (issues.filter (fun i =>
        match i.fix_version with
        | none => true
        | some v => v == "" || !((openVersionsOf data issues).contains v)),
       openVersionsOf data issues)

/-- The open-release test of the `debugVersions` script:
`description !== null && description.trim() === '-'`. -/
def debugIsOpen : Option String → Bool
  | none => false
  | some d => trimS d == "-"

/-- The open-version rows reported by `debugVersions`. -/
def debugOpenVersions (versions : List (String × Option String)) :
    List (String × Option String) :=
  versions.filter (fun v => debugIsOpen v.2)

/-- The closed-version rows reported by `debugVersions`
(`!description || description.trim() !== '-'`). -/
def debugClosedVersions (versions : List (String × Option String)) :
    List (String × Option String) :=
  versions.filter (fun v =>
    match v.2 with
    | none => true
    | some d => d == "" || !(trimS d == "-"))

/-! ## Claim theorems -/

theorem trimS_empty_of_eq_empty {s : String} (h : s = "") : trimS s = "" := by
  subst h; rfl

theorem mapCSVToIssuesAux_counts (i : Nat) (rows : List CSVRow) :
    (mapCSVToIssuesAux i rows).1.length + (mapCSVToIssuesAux i rows).2.length = rows.length ∧
    (mapCSVToIssuesAux i rows).2.length
      = (rows.filter (fun row => (findColumn row "issue_key").isNone)).length := by
  induction rows generalizing i with
  | nil => exact ⟨rfl, rfl⟩
  | cons row rest ih =>
    have h1 := (ih (i + 1)).1
    have h2 := (ih (i + 1)).2
    rcases h : findColumn row "issue_key" with - | k <;>
      simp [mapCSVToIssuesAux, h, List.filter, h1, h2] <;> omega

/-- C3: for every input row sequence, `mapCSVToIssues` returns one issue
or one key-missing error per row: the number of issues plus the number
of errors (all of which are key-missing errors, counted by the rows
whose issue key does not resolve) equals the number of rows; soft field
failures never reduce the issue count. -/
theorem C3_mapper_count_invariant (rows : List CSVRow) :
    (mapCSVToIssues rows).1.length + (mapCSVToIssues rows).2.length = rows.length ∧
    (mapCSVToIssues rows).2.length
      = (rows.filter (fun row => (findColumn row "issue_key").isNone)).length :=
  mapCSVToIssuesAux_counts 0 rows

theorem uniqueVersions_nil_of_no_fix_version (issues : List Issue)
    (h : ∀ i ∈ issues, i.fix_version = none ∨ i.fix_version = some "") :
    uniqueVersionsOf issues = [] := by
  unfold uniqueVersionsOf
  have : ((issues.map Issue.fix_version).filterMap id).filter (fun s => ¬ s = "") = [] := by
    rw [List.filter_eq_nil_iff]
    intro a ha
    simp only [List.mem_filterMap, List.mem_map, id] at ha
    obtain ⟨o, ⟨i, hi, ho⟩, hoa⟩ := ha
    rcases h i hi with h2 | h2 <;> rw [h2] at ho <;> subst ho <;> simp at hoa ⊢
    exact hoa.symm
  rw [this]
  rfl

/-- C10: when the release-description read throws, or the issues
reference no release at all (every `fix_version` absent or empty),
`getOpenVersionsAndFilterIssues` returns the input issues unchanged
(same elements, same order) with an empty open-version list — no
filtering happens on the error path. -/
theorem C10_error_path_identity (store : StoreResult) (issues : List Issue)
    (h : store = StoreResult.thrown ∨
         ∀ i ∈ issues, i.fix_version = none ∨ i.fix_version = some "") :
    getOpenVersionsAndFilterIssues store issues = (issues, []) := by
  rcases h with h | h
  · subst h
    unfold getOpenVersionsAndFilterIssues
    by_cases h2 : uniqueVersionsOf issues = []
    · rw [if_pos h2]
    · rw [if_neg h2]
  · unfold getOpenVersionsAndFilterIssues
    rw [if_pos (uniqueVersions_nil_of_no_fix_version issues h)]

/-- Witness for C10 at a concrete store and issue list. -/
theorem C10_error_path_identity_witness :
    getOpenVersionsAndFilterIssues StoreResult.thrown [⟨some "V1", 7⟩] = ([⟨some "V1", 7⟩], []) ∧
    getOpenVersionsAndFilterIssues (StoreResult.ok (some [("V1", none)])) [⟨none, 3⟩, ⟨some "", 4⟩]
      = ([⟨none, 3⟩, ⟨some "", 4⟩], []) :=
  ⟨C10_error_path_identity _ _ (Or.inl rfl),
   C10_error_path_identity _ _ (Or.inr (by decide))⟩

/-- C2 counterexample: a stored description `"-"` is classified closed
by `getOpenVersionsAndFilterIssues`'s rule but open by the
`debugVersions` script's rule, so the two implementations do not compute
the same partition. -/
theorem C2_counterexample :
    ¬ (isOpenDesc (some (some "-")) = debugIsOpen (some "-")) := by decide

/-- C2 (amended): the two open-release classifications in the code agree
exactly on the descriptions that are non-null and trim to something
other than `""` and `"-"`; they disagree on every null or blank
description (open for the shared helper, closed for `debugVersions`) and
on every description trimming to `"-"` (closed for the helper, open for
`debugVersions`). -/
theorem C2_amended_agreement (d : Option String) :
    (isOpenDesc (some d) = debugIsOpen d) ↔
      (∃ s, d = some s ∧ trimS s ≠ "" ∧ trimS s ≠ "-") := by
  cases d with
  | none => simp [isOpenDesc, debugIsOpen]
  | some s =>
    simp only [isOpenDesc, debugIsOpen]
    by_cases h1 : trimS s = ""
    · simp [h1]
    · have hs : ¬ s = "" := fun h0 => h1 (trimS_empty_of_eq_empty h0)
      have e1 : (s == "") = false := by simp [hs]
      have e2 : (trimS s == "") = false := by simp [h1]
      by_cases h2 : trimS s = "-"
      · simp [e1, e2, h2]
      · have e3 : (trimS s == "-") = false := by simp [h2]
        simp [e1, e2, e3, h1, h2]

theorem ne_empty_of_mem_uniqueVersionsOf {x : String} {issues : List Issue}
    (h : x ∈ uniqueVersionsOf issues) : x ≠ "" := by
  unfold uniqueVersionsOf at h
  have h2 := mem_jsUnique h
  simp only [List.mem_filter] at h2
  intro hx
  subst hx
  simp at h2

theorem ne_empty_of_mem_openVersionsOf {x : String}
    {data : Option (List (String × Option String))} {issues : List Issue}
    (h : x ∈ openVersionsOf data issues) : x ≠ "" := by
  unfold openVersionsOf at h
  exact ne_empty_of_mem_uniqueVersionsOf (List.mem_filter.1 h).1

theorem filter_trivial_fix_version (issues : List Issue) :
    issues.filter (fun i =>
      match i.fix_version with
      | none => true
      | some v => !(([] : List String).contains v)) = issues := by
  apply List.filter_eq_self.mpr
  intro a _
  cases hfv : a.fix_version <;> simp [hfv]

/-- C1: the lifecycle classifier of `getOpenVersionsAndFilterIssues`
marks a release open exactly when its stored description is absent (no
record or a null value) or trims to the empty string, and closed for
every other description (`"-"` included); and the issue filter removes
exactly the issues whose `fix_version` names an open release, keeping
every issue without a `fix_version`. -/
theorem C1_classifier_and_filter :
    (∀ (lookup : String → Option (Option String)) (name : String),
        isOpen lookup name = true ↔
          (lookup name = none ∨ lookup name = some none ∨
           ∃ s, lookup name = some (some s) ∧ trimS s = "")) ∧
    (∀ (lookup : String → Option (Option String)) (name s : String),
        lookup name = some (some s) → trimS s ≠ "" → isOpen lookup name = false) ∧
    (∀ (store : StoreResult) (issues : List Issue),
        (getOpenVersionsAndFilterIssues store issues).1 =
          issues.filter (fun i =>
            match i.fix_version with
            | none => true
            | some v => !((getOpenVersionsAndFilterIssues store issues).2.contains v))) := by
  refine ⟨?_, ?_, ?_⟩
  · intro lookup name
    unfold isOpen
    rcases h : lookup name with - | (- | s)
    · simp [h, isOpenDesc]
    · simp [h, isOpenDesc]
    · simp only [h, isOpenDesc, Option.some.injEq]
      constructor
      · intro hb
        rcases Bool.or_eq_true_iff.1 hb with hb2 | hb2
        · refine Or.inr (Or.inr ⟨s, rfl, ?_⟩)
          exact trimS_empty_of_eq_empty (by simpa using hb2)
        · exact Or.inr (Or.inr ⟨s, rfl, by simpa using hb2⟩)
      · rintro (h2 | h2 | ⟨s2, hs2, h2⟩)
        · simp at h2
        · simp at h2
        · subst hs2
          simp [h2]
  · intro lookup name s h hne
    unfold isOpen
    rw [h]
    have e1 : (s == "") = false := by
      simp only [beq_eq_false_iff_ne, ne_eq]
      intro h0
      exact hne (trimS_empty_of_eq_empty h0)
    have e2 : (trimS s == "") = false := by simpa using hne
    simp only [isOpenDesc, e1, e2]
    rfl
  · intro store issues
    by_cases hu : uniqueVersionsOf issues = []
    · have hg : getOpenVersionsAndFilterIssues store issues = (issues, []) := by
        unfold getOpenVersionsAndFilterIssues
        rw [if_pos hu]
      rw [hg]
      exact (filter_trivial_fix_version issues).symm
    · cases store with
      | thrown =>
        have hg : getOpenVersionsAndFilterIssues StoreResult.thrown issues = (issues, []) := by
          unfold getOpenVersionsAndFilterIssues
          rw [if_neg hu]
        rw [hg]
        exact (filter_trivial_fix_version issues).symm
      | ok data =>
        have hg : getOpenVersionsAndFilterIssues (StoreResult.ok data) issues =
            (issues.filter (fun i =>
              match i.fix_version with
              | none => true
              | some v => v == "" || !((openVersionsOf data issues).contains v)),
             openVersionsOf data issues) := by
          unfold getOpenVersionsAndFilterIssues
          rw [if_neg hu]
        rw [hg]
        dsimp only
        apply List.filter_congr
        intro i _
        cases hfv : i.fix_version with
        | none => simp only [hfv]
        | some v =>
          simp only [hfv]
          by_cases hv : v = ""
          · subst hv
            have hnm : "" ∉ openVersionsOf data issues :=
              fun hm => (ne_empty_of_mem_openVersionsOf hm) rfl
            simp [hnm]
          · have e1 : (v == "") = false := by simpa using hv
            simp [e1]

/-- Witness for C1 at concrete lookups: a `"-"` description is closed, a
blank one open. -/
theorem C1_classifier_and_filter_witness :
    isOpen (fun _ => some (some "-")) "V2" = false ∧
    isOpen (fun _ => some (some "   ")) "V1" = true :=
  ⟨C1_classifier_and_filter.2.1 (fun _ => some (some "-")) "V2" "-" rfl (by decide),
   (C1_classifier_and_filter.1 (fun _ => some (some "   ")) "V1").2
     (Or.inr (Or.inr ⟨"   ", rfl, by decide⟩))⟩

/-- C6: evaluation of the code at the failing input.  The string
`"31/04/2024"` matches the recognized `dd/MM/yyyy` format but day 31
does not exist in April; instead of rejecting it, `parseDate` lets the
date constructor roll the components over and returns `"2024-05-01"`,
never `null` (for comparison, the ISO branch does reject an invalid
calendar date). -/
theorem C6_rollover_at_failing_input :
    parseDate (some "31/04/2024") = some "2024-05-01" ∧
    parseDate (some "2024-04-31") = none := by
  constructor <;> decide

/-- C7: evaluation of the code at the failing input.  `parseFloat`
parses the numeric prefix of `"1h 30m"`, so the bare-number branch
returns 1 hour and the compound-token branch (which would give 1.5) is
never reached; the token branch runs only when the text has no leading
number, as `"x 1h 30m"` shows. -/
theorem C7_prefix_number_shadows_tokens :
    parseTimeValue (some "1h 30m") = some 1 ∧
    parseTimeValue (some "x 1h 30m") = some (3 / 2 : ℚ) := by
  constructor
  · simp only [parseTimeValue]
    rw [if_neg (by decide : ¬ ("1h 30m" = "" ∨ trimS "1h 30m" = ""))]
    rw [show trimS "1h 30m" = "1h 30m" from by decide]
    rw [show jsParseFloat "1h 30m".data =
      some ((1 : ℚ) * ((parseDigits ['1'] : ℚ) + (parseDigits ([] : List Char) : ℚ) /
        (10 : ℚ) ^ (([] : List Char)).length) * (10 : ℚ) ^ (0 : Int)) from rfl]
    rw [show parseDigits ['1'] = 1 from by decide,
        show parseDigits ([] : List Char) = 0 from by decide]
    norm_num
  · simp only [parseTimeValue]
    rw [if_neg (by decide : ¬ ("x 1h 30m" = "" ∨ trimS "x 1h 30m" = ""))]
    rw [show trimS "x 1h 30m" = "x 1h 30m" from by decide]
    rw [show jsParseFloat "x 1h 30m".data = none from rfl]
    rw [show findToken (fun c => c == 'd' || c == 'D') "x 1h 30m".data = none from by decide]
    rw [show findToken (fun c => c == 'h' || c == 'H') "x 1h 30m".data
        = some ((parseDigits ['1'] : ℚ)) from rfl]
    rw [show findToken (fun c => c == 'm' || c == 'M') "x 1h 30m".data
        = some ((parseDigits ['3', '0'] : ℚ)) from rfl]
    rw [show parseDigits ['1'] = 1 from by decide, show parseDigits ['3', '0'] = 30 from by decide]
    simp only [Option.getD_none, Option.getD_some]
    rw [show ((0 : ℚ) * 8 + (1 : Nat) + (30 : Nat) / 60) = 3 / 2 from by push_cast; ring]
    rw [if_pos (by norm_num : (0 : ℚ) < 3 / 2)]
    unfold round2 jsRound
    norm_num

/-- C9 counterexample: on a row whose issue-key column holds a single
space, `findColumn` resolves the key (it is non-empty before trimming),
and the mapper emits a record whose `issue_key` is the empty string. -/
theorem C9_counterexample :
    (mapCSVToIssues [[("Issue Key", " ")]]).1.map ParsedIssue.issue_key = [""] := by
  decide

theorem findColumn_eq_some {row : CSVRow} {k v : String}
    (h : findColumn row k = some v) :
    v ≠ "" ∧ ∃ p ∈ row, p.2 = v := by
  unfold findColumn at h
  rw [List.findSome?_eq_some_iff] at h
  obtain ⟨l1, name, l2, -, hname, -⟩ := h
  rcases hr : rowGet row name with - | v0
  · rw [hr] at hname
    simp at hname
  · rw [hr] at hname
    dsimp only at hname
    by_cases hv0 : v0 = ""
    · rw [if_neg (by simpa using hv0)] at hname
      simp at hname
    · rw [if_pos (by simpa using hv0)] at hname
      obtain rfl : v0 = v := by simpa using hname
      refine ⟨hv0, ?_⟩
      unfold rowGet at hr
      rcases hf : row.find? (fun p => p.1 == name) with - | p
      · rw [hf] at hr; simp at hr
      · rw [hf] at hr
        refine ⟨p, List.mem_of_find?_eq_some hf, by simpa using hr⟩

theorem mem_mapCSVToIssuesAux {issue : ParsedIssue} :
    ∀ (i : Nat) (rows : List CSVRow), issue ∈ (mapCSVToIssuesAux i rows).1 →
      ∃ row ∈ rows, ∃ k, findColumn row "issue_key" = some k ∧ issue = buildIssue row k := by
  intro i rows
  induction rows generalizing i with
  | nil => intro h; simp [mapCSVToIssuesAux] at h
  | cons row rest ih =>
    intro h
    rcases hk : findColumn row "issue_key" with - | k <;>
      simp only [mapCSVToIssuesAux, hk] at h
    · obtain ⟨r, hr, hrest⟩ := ih (i + 1) h
      exact ⟨r, List.mem_cons_of_mem _ hr, hrest⟩
    · rcases List.mem_cons.1 h with h2 | h2
      · exact ⟨row, List.mem_cons_self _ _, k, hk, h2⟩
      · obtain ⟨r, hr, hrest⟩ := ih (i + 1) h2
        exact ⟨r, List.mem_cons_of_mem _ hr, hrest⟩

theorem mem_csvFields_trim :
    ∀ (l : List Char) (inQ : Bool) (cur : List Char) (acc : List String),
      (∀ s ∈ acc, trimS s = s) → ∀ s ∈ csvFields l inQ cur acc, trimS s = s := by
  have hpush : ∀ (cur : List Char), trimS ⟨trimL cur⟩ = ⟨trimL cur⟩ := by
    intro cur
    show (⟨trimL (trimL cur)⟩ : String) = ⟨trimL cur⟩
    rw [trimL_idem]
  have happ : ∀ (acc : List String) (cur : List Char),
      (∀ s ∈ acc, trimS s = s) → ∀ s ∈ acc ++ [(⟨trimL cur⟩ : String)], trimS s = s := by
    intro acc cur hacc s hs
    rcases List.mem_append.1 hs with h | h
    · exact hacc s h
    · simp at h
      rw [h]
      exact hpush cur
  intro l inQ cur acc
  induction l, inQ, cur, acc using csvFields.induct with
  | case1 inQ cur acc =>
    intro hacc
    simp only [csvFields]
    exact happ acc cur hacc
  | case2 rest cur acc ih =>
    intro hacc
    simp only [csvFields]
    exact ih hacc
  | case3 rest inQ cur acc hside ih =>
    intro hacc
    rw [show csvFields ('"' :: rest) inQ cur acc = csvFields rest (!inQ) cur acc from by
      rcases rest with - | ⟨c2, rest2⟩
      · rfl
      · by_cases hc2 : c2 = '"'
        · subst hc2
          cases inQ with
          | false => rfl
          | true => exact (hside rest2 rfl rfl).elim
        · cases inQ <;> simp [csvFields, hc2]
      ]
    exact ih hacc
  | case4 rest cur acc ih =>
    intro hacc
    simp only [csvFields]
    exact ih (happ acc cur hacc)
  | case5 c rest inQ cur acc h1 h2 h3 ih =>
    intro hacc
    rw [show csvFields (c :: rest) inQ cur acc = csvFields rest inQ (cur ++ [c]) acc from by
      by_cases hc : c = '"'
      · exact absurd hc h2
      · by_cases hcm : c = ','
        · subst hcm
          cases inQ with
          | false => exact (h3 rfl rfl).elim
          | true => rfl
        · cases inQ <;> simp [csvFields, hc, hcm]
      ]
    exact ih hacc

theorem mem_objSet {row : CSVRow} {k v : String} {p : String × String}
    (h : p ∈ objSet row k v) : p = (k, v) ∨ p ∈ row := by
  unfold objSet at h
  split_ifs at h with hc
  · rcases List.mem_map.1 h with ⟨q, hq, hqe⟩
    by_cases hqk : q.1 == k
    · rw [if_pos hqk] at hqe
      exact Or.inl hqe.symm
    · rw [if_neg hqk] at hqe
      exact Or.inr (hqe ▸ hq)
  · rcases List.mem_append.1 h with h2 | h2
    · exact Or.inr h2
    · simp at h2
      exact Or.inl h2

theorem mem_buildRow_trim {headers values : List String} {p : String × String}
    (hv : ∀ s ∈ values, trimS s = s) (h : p ∈ buildRow headers values) :
    trimS p.2 = p.2 := by
  have hval : ∀ (i : Nat), trimS (values.getD i "") = values.getD i "" := by
    intro i
    rw [List.getD_eq_getElem?_getD]
    rcases hg : values[i]? with - | s
    · rfl
    · exact hv s (List.getElem?_mem hg)
  suffices hgen : ∀ (l : List (Nat × String)) (r : CSVRow),
      (∀ q ∈ r, trimS q.2 = q.2) →
      p ∈ l.foldl (fun r2 q => objSet r2 q.2 (values.getD q.1 "")) r → trimS p.2 = p.2 by
    exact hgen headers.enum [] (by simp) h
  intro l
  induction l with
  | nil => intro r hr h2; exact hr p h2
  | cons q rest ih =>
    intro r hr h2
    refine ih _ ?_ h2
    intro q2 hq2
    rcases mem_objSet hq2 with h3 | h3
    · rw [h3]
      exact hval q.1
    · exact hr q2 h3

theorem parseCSV_values_trimmed {text : String} {row : CSVRow} {p : String × String}
    (hrow : row ∈ parseCSV text) (hp : p ∈ row) : trimS p.2 = p.2 := by
  simp only [parseCSV] at hrow
  split_ifs at hrow with hlen
  · simp at hrow
  · rcases List.mem_map.1 hrow with ⟨l, -, hl⟩
    subst hl
    exact mem_buildRow_trim
      (fun s hs => mem_csvFields_trim l false [] [] (by simp) s hs) hp

/-- C9 (amended): every issue emitted by the mapper has an `issue_key`
that is the trim of a non-empty resolved raw value; it is non-empty
whenever the row values carry no surrounding whitespace — in particular
for every row produced by `parseCSV`, whose fields are trimmed during
parsing.  (A hand-built row whose key column is all whitespace defeats
the guarantee, as the counterexample shows.) -/
theorem C9_amended :
    (∀ (rows : List CSVRow), ∀ issue ∈ (mapCSVToIssues rows).1,
        ∃ row ∈ rows, ∃ raw, findColumn row "issue_key" = some raw ∧ raw ≠ "" ∧
          issue.issue_key = trimS raw) ∧
    (∀ (rows : List CSVRow),
        (∀ row ∈ rows, ∀ p ∈ row, trimS p.2 = p.2) →
        ∀ issue ∈ (mapCSVToIssues rows).1, issue.issue_key ≠ "") ∧
    (∀ (text : String), ∀ issue ∈ (mapCSVToIssues (parseCSV text)).1,
        issue.issue_key ≠ "") := by
  have part1 : ∀ (rows : List CSVRow), ∀ issue ∈ (mapCSVToIssues rows).1,
      ∃ row ∈ rows, ∃ raw, findColumn row "issue_key" = some raw ∧ raw ≠ "" ∧
        issue.issue_key = trimS raw := by
    intro rows issue hmem
    obtain ⟨row, hrow, k, hk, hbuild⟩ := mem_mapCSVToIssuesAux 0 rows hmem
    obtain ⟨hne, -⟩ := findColumn_eq_some hk
    refine ⟨row, hrow, k, hk, hne, ?_⟩
    rw [hbuild]
    rfl
  have part2 : ∀ (rows : List CSVRow),
      (∀ row ∈ rows, ∀ p ∈ row, trimS p.2 = p.2) →
      ∀ issue ∈ (mapCSVToIssues rows).1, issue.issue_key ≠ "" := by
    intro rows htrim issue hmem
    obtain ⟨row, hrow, raw, hk, hne, hkey⟩ := part1 rows issue hmem
    obtain ⟨-, p, hp, hpv⟩ := findColumn_eq_some hk
    have : trimS raw = raw := by rw [← hpv]; exact htrim row hrow p hp
    rw [hkey, this]
    exact hne
  exact ⟨part1, part2, fun text issue hmem =>
    part2 (parseCSV text) (fun row hrow p hp => parseCSV_values_trimmed hrow hp) issue hmem⟩

/-- Witness for C9 (amended) on a concrete trimmed row. -/
theorem C9_amended_witness :
    (buildIssue [("Issue key", "K-1")] "K-1").issue_key ≠ "" := by
  have hmem : buildIssue [("Issue key", "K-1")] "K-1" ∈
      (mapCSVToIssues [[("Issue key", "K-1")]]).1 := by decide
  exact C9_amended.2.1 [[("Issue key", "K-1")]] (by decide) _ hmem

/-- C8 counterexample: `"A,B\n\"\""` has two non-blank lines, hence one
data line, but the data line parses to a single empty field and is
skipped, so `parseCSV` returns no rows. -/
theorem C8_counterexample :
    (nonblankLines "A,B\n\"\"").length = 2 ∧ parseCSV "A,B\n\"\"" = [] := by
  constructor <;> decide

theorem keys_objSet_present {r : CSVRow} {k v : String}
    (h : r.any (fun p => p.1 == k) = true) :
    (objSet r k v).map Prod.fst = r.map Prod.fst := by
  unfold objSet
  rw [if_pos h, List.map_map]
  apply List.map_congr_left
  intro p hp
  by_cases hpk : p.1 = k
  · simp [hpk]
  · simp [hpk]

theorem keys_objSet_absent {r : CSVRow} {k v : String}
    (h : ¬ r.any (fun p => p.1 == k) = true) :
    (objSet r k v).map Prod.fst = r.map Prod.fst ++ [k] := by
  unfold objSet
  rw [if_neg h]
  simp

theorem mem_keys_buildRow {headers values : List String} {k2 : String} :
    k2 ∈ (buildRow headers values).map Prod.fst ↔ k2 ∈ headers := by
  suffices hgen : ∀ (l : List (Nat × String)) (r : CSVRow),
      k2 ∈ (l.foldl (fun r2 q => objSet r2 q.2 (values.getD q.1 "")) r).map Prod.fst ↔
        k2 ∈ r.map Prod.fst ∨ k2 ∈ l.map Prod.snd by
    have h := hgen headers.enum []
    rw [List.enum_map_snd] at h
    simpa [buildRow] using h
  intro l
  induction l with
  | nil => simp
  | cons q rest ih =>
    intro r
    rw [List.foldl_cons, ih]
    by_cases h : r.any (fun p => p.1 == q.2) = true
    · rw [keys_objSet_present h]
      have hq : q.2 ∈ r.map Prod.fst := by
        rcases List.any_eq_true.1 h with ⟨p, hp, hpq⟩
        exact List.mem_map.2 ⟨p, hp, eq_of_beq hpq⟩
      simp only [List.map_cons, List.mem_cons]
      constructor
      · rintro (h2 | h2)
        · exact Or.inl h2
        · exact Or.inr (Or.inr h2)
      · rintro (h2 | h2 | h2)
        · exact Or.inl h2
        · exact Or.inl (h2 ▸ hq)
        · exact Or.inr h2
    · rw [keys_objSet_absent h]
      simp only [List.map_cons, List.mem_cons, List.mem_append, List.mem_singleton]
      tauto

/-- C8 (amended): `parseCSV` returns no rows for texts with fewer than
two non-blank lines; otherwise it returns one row per non-degenerate
data line (a data line parsing to a single empty field — a stray quoted
blank — is skipped, so the row count can fall short of the data-line
count), and every returned row's key set equals the
duplicate-disambiguated header set. -/
theorem C8_amended :
    (∀ text : String, (nonblankLines text).length < 2 → parseCSV text = []) ∧
    (∀ text : String, ¬ (nonblankLines text).length < 2 →
        (parseCSV text).length =
          ((nonblankLines text).tail.filter
            (fun l => ¬ degenerateLine (parseCSVLine l))).length) ∧
    (∀ text : String, ∀ row ∈ parseCSV text, ∀ k : String,
        k ∈ row.map Prod.fst ↔
          k ∈ disambiguate [] (parseCSVLine (nonblankLines text).headI)) := by
  refine ⟨?_, ?_, ?_⟩
  · intro text h
    unfold parseCSV
    rw [if_pos h]
  · intro text h
    unfold parseCSV
    rw [if_neg h]
    exact List.length_map _ _
  · intro text row hrow k
    simp only [parseCSV] at hrow
    split_ifs at hrow with hlen
    · simp at hrow
    · rcases List.mem_map.1 hrow with ⟨l, -, hl⟩
      subst hl
      exact mem_keys_buildRow

/-- Witness for C8 (amended) on a concrete CSV text with a duplicate
header and a skipped quoted-blank line. -/
theorem C8_amended_witness :
    parseCSV "A" = [] ∧
    (parseCSV "A,B,A\nx,y,z\n\"\"\nu,v,w").length = 2 ∧
    (("A_2" ∈ (["A", "B", "A_2"] : List String)) ↔
      ("A_2" ∈ disambiguate []
        (parseCSVLine (nonblankLines "A,B,A\nx,y,z\n\"\"\nu,v,w").headI))) := by
  refine ⟨C8_amended.1 "A" (by decide), ?_, ?_⟩
  · rw [C8_amended.2.1 "A,B,A\nx,y,z\n\"\"\nu,v,w" (by decide)]
    decide
  · rw [show disambiguate [] (parseCSVLine (nonblankLines "A,B,A\nx,y,z\n\"\"\nu,v,w").headI)
        = ["A", "B", "A_2"] from by decide]

theorem firstNonzero_nonneg : ∀ w : List Nat, 0 ≤ firstNonzero w := by
  intro w
  induction w with
  | nil => simp [firstNonzero]
  | cons b bs ih => by_cases hb : b = 0 <;> simp [firstNonzero, hb, ih]

theorem compareNumLists_nil_eq : ∀ w : List Nat, compareNumLists w [] = firstNonzero w := by
  intro w
  induction w with
  | nil => rfl
  | cons b bs ih => by_cases hb : b = 0 <;> simp [compareNumLists, firstNonzero, hb, ih]

theorem compareNumLists_nil_le (w : List Nat) : compareNumLists [] w ≤ 0 := by
  rw [show compareNumLists [] w = -firstNonzero w from rfl]
  have := firstNonzero_nonneg w
  omega

theorem compareNumLists_nil_ge (w : List Nat) : 0 ≤ compareNumLists w [] := by
  rw [compareNumLists_nil_eq]
  exact firstNonzero_nonneg w

theorem compareNumLists_refl : ∀ x : List Nat, compareNumLists x x = 0 := by
  intro x
  induction x with
  | nil => rfl
  | cons a as ih => simp [compareNumLists, ih]

theorem compareNumLists_flip : ∀ x y : List Nat, compareNumLists x y = -compareNumLists y x := by
  intro x
  induction x with
  | nil =>
    intro y
    rw [compareNumLists_nil_eq]
    rfl
  | cons a as ih =>
    intro y
    cases y with
    | nil =>
      rw [compareNumLists_nil_eq]
      rw [show compareNumLists [] (a :: as) = -firstNonzero (a :: as) from rfl]
      omega
    | cons b bs =>
      by_cases hab : a = b
      · subst hab
        simp [compareNumLists, ih bs]
      · have hba : ¬ b = a := fun h => hab h.symm
        simp only [compareNumLists, ne_eq, hab, hba, not_false_eq_true, if_true]
        omega

theorem compareNumLists_nil_lt {y z : List Nat} (h : compareNumLists y z < 0) :
    compareNumLists [] z < 0 := by
  induction z generalizing y with
  | nil => exact absurd h (by have := compareNumLists_nil_ge y; omega)
  | cons cz zs ih =>
    rw [show compareNumLists [] (cz :: zs) = -firstNonzero (cz :: zs) from rfl]
    rw [show firstNonzero (cz :: zs) = if cz ≠ 0 then (cz : Int) else firstNonzero zs from rfl]
    by_cases hcz : cz = 0
    · rw [if_neg (by simpa using hcz)]
      subst hcz
      cases y with
      | nil =>
        rw [show compareNumLists [] (0 :: zs) = -firstNonzero zs from rfl] at h
        omega
      | cons b bs =>
        rw [show compareNumLists (b :: bs) (0 :: zs)
              = if b ≠ 0 then ((b : Int) - 0) else compareNumLists bs zs from rfl] at h
        by_cases hb : b = 0
        · rw [if_neg (by simpa using hb)] at h
          have := ih h
          rw [show compareNumLists [] zs = -firstNonzero zs from rfl] at this
          omega
        · rw [if_pos hb] at h
          omega
    · rw [if_pos hcz]
      omega

theorem compareNumLists_trans_aux : ∀ n : Nat, ∀ x y z : List Nat,
    x.length + y.length + z.length ≤ n →
    (compareNumLists x y ≤ 0 → compareNumLists y z ≤ 0 → compareNumLists x z ≤ 0) ∧
    (compareNumLists x y ≤ 0 → compareNumLists y z < 0 → compareNumLists x z < 0) ∧
    (compareNumLists x y < 0 → compareNumLists y z ≤ 0 → compareNumLists x z < 0) := by
  intro n
  induction n with
  | zero =>
    intro x y z hlen
    have hx : x = [] := List.eq_nil_of_length_eq_zero (by omega)
    have hy : y = [] := List.eq_nil_of_length_eq_zero (by omega)
    have hz : z = [] := List.eq_nil_of_length_eq_zero (by omega)
    subst hx; subst hy; subst hz
    refine ⟨fun h _ => h, fun _ h => h, fun h _ => h⟩
  | succ n IH =>
    intro x y z hlen
    cases x with
    | nil =>
      refine ⟨fun _ _ => compareNumLists_nil_le z, fun _ h2 => compareNumLists_nil_lt h2, ?_⟩
      intro h1 h2
      cases y with
      | nil => exact absurd h1 (by rw [show compareNumLists ([] : List Nat) [] = 0 from rfl]; omega)
      | cons b bs =>
        cases z with
        | nil =>
          rw [compareNumLists_nil_eq] at h2
          rw [show compareNumLists [] (b :: bs) = -firstNonzero (b :: bs) from rfl] at h1
          omega
        | cons cz zs =>
          rw [show compareNumLists [] (cz :: zs) = -firstNonzero (cz :: zs) from rfl]
          rw [show firstNonzero (cz :: zs) = if cz ≠ 0 then (cz : Int) else firstNonzero zs from rfl]
          by_cases hcz : cz = 0
          · rw [if_neg (by omega)]
            subst hcz
            rw [show compareNumLists (b :: bs) (0 :: zs)
                  = if b ≠ 0 then ((b : Int) - 0) else compareNumLists bs zs from rfl] at h2
            by_cases hb : b = 0
            · rw [if_neg (by omega)] at h2
              subst hb
              rw [show compareNumLists [] (0 :: bs) = -firstNonzero bs from rfl] at h1
              have h1' : compareNumLists [] bs < 0 := by
                rw [show compareNumLists [] bs = -firstNonzero bs from rfl]; omega
              have := (IH [] bs zs
                (by simp only [List.length_cons, List.length_nil] at hlen ⊢; omega)).2.2 h1' h2
              rw [show compareNumLists [] zs = -firstNonzero zs from rfl] at this
              omega
            · rw [if_pos hb] at h2
              omega
          · rw [if_pos hcz]
            omega
    | cons a as =>
      cases y with
      | nil =>
        have split1 : ∀ q : Int, compareNumLists (a :: as) [] ≤ q → q < 1 →
            a = 0 ∧ compareNumLists as [] ≤ q := by
          intro q h hq
          rw [show compareNumLists (a :: as) []
                = if a ≠ 0 then (a : Int) else compareNumLists as [] from rfl] at h
          by_cases ha : a = 0
          · rw [if_neg (by omega)] at h
            exact ⟨ha, h⟩
          · rw [if_pos ha] at h
            omega
        refine ⟨?_, ?_, ?_⟩
        · intro h1 h2
          obtain ⟨ha, h1'⟩ := split1 0 h1 (by omega)
          subst ha
          cases z with
          | nil =>
            rw [show compareNumLists (0 :: as) []
                  = if (0 : Nat) ≠ 0 then ((0 : Nat) : Int) else compareNumLists as [] from rfl]
            rw [if_neg (by omega)]
            exact h1'
          | cons cz zs =>
            rw [show compareNumLists (0 :: as) (cz :: zs)
                  = if (0 : Nat) ≠ cz then (((0 : Nat) : Int) - cz) else compareNumLists as zs from rfl]
            by_cases hcz : cz = 0
            · subst hcz
              rw [if_neg (by omega)]
              have h2' : compareNumLists [] zs ≤ 0 := compareNumLists_nil_le zs
              exact (IH as [] zs
                (by simp only [List.length_cons, List.length_nil] at hlen ⊢; omega)).1 h1' h2'
            · rw [if_pos (by omega)]
              omega
        · intro h1 h2
          obtain ⟨ha, h1'⟩ := split1 0 h1 (by omega)
          subst ha
          cases z with
          | nil => exact absurd h2 (by rw [show compareNumLists ([] : List Nat) [] = 0 from rfl]; omega)
          | cons cz zs =>
            rw [show compareNumLists (0 :: as) (cz :: zs)
                  = if (0 : Nat) ≠ cz then (((0 : Nat) : Int) - cz) else compareNumLists as zs from rfl]
            by_cases hcz : cz = 0
            · subst hcz
              rw [if_neg (by omega)]
              rw [show compareNumLists [] (0 :: zs) = -firstNonzero zs from rfl] at h2
              have h2' : compareNumLists [] zs < 0 := by
                rw [show compareNumLists [] zs = -firstNonzero zs from rfl]
                omega
              exact (IH as [] zs
                (by simp only [List.length_cons, List.length_nil] at hlen ⊢; omega)).2.1 h1' h2'
            · rw [if_pos (by omega)]
              omega
        · intro h1 h2
          obtain ⟨ha, h1'⟩ := split1 (-1) (by omega) (by omega)
          have hge := compareNumLists_nil_ge as
          omega
      | cons b bs =>
        cases z with
        | nil =>
          have split2 : ∀ q : Int, compareNumLists (b :: bs) [] ≤ q → q < 1 →
              b = 0 ∧ compareNumLists bs [] ≤ q := by
            intro q h hq
            rw [show compareNumLists (b :: bs) []
                  = if b ≠ 0 then (b : Int) else compareNumLists bs [] from rfl] at h
            by_cases hb : b = 0
            · rw [if_neg (by omega)] at h
              exact ⟨hb, h⟩
            · rw [if_pos hb] at h
              omega
          refine ⟨?_, ?_, ?_⟩
          · intro h1 h2
            obtain ⟨hb, h2'⟩ := split2 0 h2 (by omega)
            subst hb
            rw [show compareNumLists (a :: as) (0 :: bs)
                  = if a ≠ 0 then ((a : Int) - 0) else compareNumLists as bs from rfl] at h1
            by_cases ha : a = 0
            · rw [if_neg (by omega)] at h1
              subst ha
              rw [show compareNumLists (0 :: as) []
                    = if (0 : Nat) ≠ 0 then ((0 : Nat) : Int) else compareNumLists as [] from rfl]
              rw [if_neg (by omega)]
              exact (IH as bs []
                (by simp only [List.length_cons, List.length_nil] at hlen ⊢; omega)).1 h1 h2'
            · rw [if_pos ha] at h1
              omega
          · intro h1 h2
            obtain ⟨hb, h2'⟩ := split2 (-1) (by omega) (by omega)
            have hge := compareNumLists_nil_ge bs
            omega
          · intro h1 h2
            obtain ⟨hb, h2'⟩ := split2 0 h2 (by omega)
            subst hb
            rw [show compareNumLists (a :: as) (0 :: bs)
                  = if a ≠ 0 then ((a : Int) - 0) else compareNumLists as bs from rfl] at h1
            by_cases ha : a = 0
            · rw [if_neg (by omega)] at h1
              subst ha
              rw [show compareNumLists (0 :: as) []
                    = if (0 : Nat) ≠ 0 then ((0 : Nat) : Int) else compareNumLists as [] from rfl]
              rw [if_neg (by omega)]
              exact (IH as bs []
                (by simp only [List.length_cons, List.length_nil] at hlen ⊢; omega)).2.2 h1 h2'
            · rw [if_pos ha] at h1
              omega
        | cons cz zs =>
          have e1 : compareNumLists (a :: as) (b :: bs)
              = if a ≠ b then ((a : Int) - b) else compareNumLists as bs := rfl
          have e2 : compareNumLists (b :: bs) (cz :: zs)
              = if b ≠ cz then ((b : Int) - cz) else compareNumLists bs zs := rfl
          have e3 : compareNumLists (a :: as) (cz :: zs)
              = if a ≠ cz then ((a : Int) - cz) else compareNumLists as zs := rfl
          have ihs := IH as bs zs
            (by simp only [List.length_cons, List.length_nil] at hlen ⊢; omega)
          refine ⟨?_, ?_, ?_⟩ <;> intro h1 h2 <;> rw [e1] at h1 <;> rw [e2] at h2 <;> rw [e3] <;>
            by_cases hab : a = b <;> by_cases hbz : b = cz
          · subst hab; subst hbz
            rw [if_neg (by omega)] at h1 h2 ⊢
            exact ihs.1 h1 h2
          · subst hab
            rw [if_neg (by omega)] at h1
            rw [if_pos hbz] at h2
            rw [if_pos hbz]
            omega
          · subst hbz
            rw [if_pos hab] at h1
            rw [if_neg (by omega)] at h2
            rw [if_pos hab]
            omega
          · rw [if_pos hab] at h1
            rw [if_pos hbz] at h2
            rw [if_pos (show a ≠ cz from by omega)]
            omega
          · subst hab; subst hbz
            rw [if_neg (by omega)] at h1 h2 ⊢
            exact ihs.2.1 h1 h2
          · subst hab
            rw [if_neg (by omega)] at h1
            rw [if_pos hbz] at h2
            rw [if_pos hbz]
            omega
          · subst hbz
            rw [if_pos hab] at h1
            rw [if_neg (by omega)] at h2
            rw [if_pos hab]
            omega
          · rw [if_pos hab] at h1
            rw [if_pos hbz] at h2
            rw [if_pos (show a ≠ cz from by omega)]
            omega
          · subst hab; subst hbz
            rw [if_neg (by omega)] at h1 h2 ⊢
            exact ihs.2.2 h1 h2
          · subst hab
            rw [if_neg (by omega)] at h1
            rw [if_pos hbz] at h2
            rw [if_pos hbz]
            omega
          · subst hbz
            rw [if_pos hab] at h1
            rw [if_neg (by omega)] at h2
            rw [if_pos hab]
            omega
          · rw [if_pos hab] at h1
            rw [if_pos hbz] at h2
            rw [if_pos (show a ≠ cz from by omega)]
            omega

theorem compareNumLists_le_trans {x y z : List Nat}
    (h1 : compareNumLists x y ≤ 0) (h2 : compareNumLists y z ≤ 0) : compareNumLists x z ≤ 0 :=
  (compareNumLists_trans_aux (x.length + y.length + z.length) x y z le_rfl).1 h1 h2

theorem compareNumLists_lt_of_le_lt {x y z : List Nat}
    (h1 : compareNumLists x y ≤ 0) (h2 : compareNumLists y z < 0) : compareNumLists x z < 0 :=
  (compareNumLists_trans_aux (x.length + y.length + z.length) x y z le_rfl).2.1 h1 h2

theorem compareNumLists_lt_of_lt_le {x y z : List Nat}
    (h1 : compareNumLists x y < 0) (h2 : compareNumLists y z ≤ 0) : compareNumLists x z < 0 :=
  (compareNumLists_trans_aux (x.length + y.length + z.length) x y z le_rfl).2.2 h1 h2

theorem compareVersions_refl (v : String) : compareVersions v v = 0 :=
  compareNumLists_refl _

theorem compareVersions_flip (u v : String) : compareVersions u v = -compareVersions v u :=
  compareNumLists_flip _ _

theorem compareVersions_le_trans {u v w : String}
    (h1 : compareVersions u v ≤ 0) (h2 : compareVersions v w ≤ 0) : compareVersions u w ≤ 0 :=
  compareNumLists_le_trans h1 h2

theorem compareVersions_lt_of_le_lt {u v w : String}
    (h1 : compareVersions u v ≤ 0) (h2 : compareVersions v w < 0) : compareVersions u w < 0 :=
  compareNumLists_lt_of_le_lt h1 h2

theorem compareVersions_lt_of_lt_le {u v w : String}
    (h1 : compareVersions u v < 0) (h2 : compareVersions v w ≤ 0) : compareVersions u w < 0 :=
  compareNumLists_lt_of_lt_le h1 h2

/-- Spec-side notion: `v` is greatest in `l` under the digit-sequence
comparator (no member ranks strictly above it). -/
def isTopVersion (l : List String) (v : String) : Bool :=
  l.all (fun w => decide (compareVersions w v ≤ 0))

/-- Spec-side notion, written from the claim's words: the member of the
value list that is greatest under the comparator, ties resolving to the
value encountered first. -/
def firstTopVersion (l : List String) : Option String :=
  l.find? (isTopVersion l)

theorem find_eq_find_of_mem {α : Type} (l : List α) (p q : α → Bool)
    (h : ∀ v ∈ l, p v = q v) : l.find? p = l.find? q := by
  induction l with
  | nil => rfl
  | cons a as ih =>
    have ha := h a (by simp)
    by_cases hpa : p a = true
    · rw [List.find?_cons_of_pos as hpa, List.find?_cons_of_pos as (ha ▸ hpa)]
    · rw [List.find?_cons_of_neg as hpa, List.find?_cons_of_neg as (ha ▸ hpa)]
      exact ih (fun v hv => h v (by simp [hv]))

theorem find_top_foldl : ∀ (l : List String) (a : String),
    (a :: l).find? (isTopVersion (a :: l))
      = some (l.foldl (fun highest current =>
          if compareVersions current highest > 0 then current else highest) a) := by
  intro l
  induction l with
  | nil =>
    intro a
    rw [List.foldl_nil]
    exact List.find?_cons_of_pos []
      (by simp [isTopVersion, compareVersions_refl])
  | cons cur rest ih =>
    intro a
    rw [List.foldl_cons]
    by_cases hgt : compareVersions cur a > 0
    · rw [if_pos hgt]
      have hsplit : ∀ v, isTopVersion (a :: cur :: rest) v
          = (decide (compareVersions a v ≤ 0) && isTopVersion (cur :: rest) v) := by
        intro v
        simp [isTopVersion, List.all_cons]
      have hpa : ¬ isTopVersion (a :: cur :: rest) a = true := by
        rw [hsplit a]
        simp [isTopVersion, List.all_cons]
        intro _ h
        omega
      rw [List.find?_cons_of_neg _ hpa]
      rw [← ih cur]
      apply find_eq_find_of_mem
      intro v hv
      rw [hsplit v]
      by_cases hsm : isTopVersion (cur :: rest) v = true
      · have hcv : compareVersions cur v ≤ 0 := by
          have := hsm
          simp [isTopVersion, List.all_cons] at this
          exact this.1
        have hacur : compareVersions a cur < 0 := by
          have := compareVersions_flip a cur
          omega
        have hav : compareVersions a v < 0 := compareVersions_lt_of_lt_le hacur hcv
        rw [hsm, decide_eq_true (by omega : compareVersions a v ≤ 0)]
        rfl
      · have hsm' : isTopVersion (cur :: rest) v = false := by
          cases h : isTopVersion (cur :: rest) v
          · rfl
          · exact absurd h hsm
        rw [hsm', Bool.and_false]
    · rw [if_neg hgt]
      have hle : compareVersions cur a ≤ 0 := by omega
      by_cases hpa : isTopVersion (a :: cur :: rest) a = true
      · rw [List.find?_cons_of_pos _ hpa]
        have hpa' : isTopVersion (a :: rest) a = true := by
          simp [isTopVersion, List.all_cons] at hpa ⊢
          exact ⟨hpa.1, hpa.2.2⟩
        have hih := ih a
        rw [List.find?_cons_of_pos _ hpa'] at hih
        exact hih
      · rw [List.find?_cons_of_neg _ hpa]
        have hpcur : ¬ isTopVersion (a :: cur :: rest) cur = true := by
          intro hcurtop
          apply hpa
          simp [isTopVersion, List.all_cons] at hcurtop ⊢
          obtain ⟨hac, hrest⟩ := hcurtop
          refine ⟨by rw [compareVersions_refl], hle, ?_⟩
          intro w hw
          exact compareVersions_le_trans (hrest.2 w hw) hle
        rw [List.find?_cons_of_neg _ hpcur]
        have hpa' : ¬ isTopVersion (a :: rest) a = true := by
          intro h'
          apply hpa
          simp [isTopVersion, List.all_cons] at h' ⊢
          exact ⟨h'.1, hle, h'.2⟩
        have hih := ih a
        rw [List.find?_cons_of_neg _ hpa'] at hih
        rw [← hih]
        apply find_eq_find_of_mem
        intro v hv
        have hbig : isTopVersion (a :: cur :: rest) v
            = (decide (compareVersions cur v ≤ 0) && isTopVersion (a :: rest) v) := by
          simp only [isTopVersion, List.all_cons]
          rw [Bool.and_left_comm]
        rw [hbig]
        by_cases hsm : isTopVersion (a :: rest) v = true
        · have hav : compareVersions a v ≤ 0 := by
            have := hsm
            simp [isTopVersion, List.all_cons] at this
            exact this.1
          have hcv : compareVersions cur v ≤ 0 := compareVersions_le_trans hle hav
          rw [hsm, decide_eq_true hcv]
          rfl
        · have hsm' : isTopVersion (a :: rest) v = false := by
            cases h : isTopVersion (a :: rest) v
            · rfl
            · exact absurd h hsm
          rw [hsm', Bool.and_false]

theorem getHighestVersion_eq_firstTop (l : List String) :
    getHighestVersion l = firstTopVersion l := by
  match l with
  | [] => rfl
  | [v] =>
    rw [show getHighestVersion [v] = some v from rfl]
    rw [firstTopVersion]
    exact (List.find?_cons_of_pos [] (by simp [isTopVersion, compareVersions_refl])).symm
  | v :: v2 :: vs =>
    rw [show getHighestVersion (v :: v2 :: vs)
          = some ((v2 :: vs).foldl (fun highest current =>
              if compareVersions current highest > 0 then current else highest) v) from rfl]
    exact (find_top_foldl (v2 :: vs) v).symm

theorem findAllColumnsValues_ne_empty (row : CSVRow) (k : String) :
    ∀ v ∈ findAllColumnsValues row k, ¬ v = "" := by
  intro v hv
  rw [findAllColumnsValues] at hv
  have hv' := mem_jsUnique hv
  rw [List.mem_map] at hv'
  obtain ⟨p, hp, hpv⟩ := hv'
  have := List.of_mem_filter hp
  simp only [Bool.and_eq_true, Bool.not_eq_true', beq_eq_false_iff_ne] at this
  intro hveq
  exact this.2 (by rw [hpv]; exact hveq)

/-- C4: for every row the mapped `fix_version` is the member of the
multi-column fix-version value set that is greatest under the
digit-sequence comparator, ties resolving to the value encountered first
(`firstTopVersion`); it is `none` when the row has no non-empty
fix-version value; `compareVersions "Release 2.10.0" "Release 2.9.0"` is
positive; and a row with duplicate-suffixed columns holding "1.0" and
"1.2" maps to `fix_version = some "1.2"`. -/
theorem C4_highest_version_selection :
    (∀ (row : CSVRow) (issueKey : String),
        (buildIssue row issueKey).fix_version
          = firstTopVersion (findAllColumnsValues row "fix_version")) ∧
    (∀ (l : List String) (v : String), firstTopVersion l = some v →
        v ∈ l ∧ ∀ w ∈ l, compareVersions w v ≤ 0) ∧
    (∀ (row : CSVRow) (issueKey : String),
        findAllColumnsValues row "fix_version" = [] →
        (buildIssue row issueKey).fix_version = none) ∧
    compareVersions "Release 2.10.0" "Release 2.9.0" > 0 ∧
    (mapCSVToIssues [[("Chave da item", "PROJ-1"), ("Versões corrigidas", "1.0"),
        ("Versões corrigidas_2", "1.2")]]).1.map ParsedIssue.fix_version = [some "1.2"] := by
  have hA : ∀ (row : CSVRow) (issueKey : String),
      (buildIssue row issueKey).fix_version
        = firstTopVersion (findAllColumnsValues row "fix_version") := by
    intro row issueKey
    simp only [buildIssue]
    rw [List.filter_eq_self.mpr (by
      intro v hv
      simpa using findAllColumnsValues_ne_empty row "fix_version" v hv)]
    exact getHighestVersion_eq_firstTop _
  refine ⟨hA, ?_, ?_, by decide, by decide⟩
  · intro l v h
    rw [firstTopVersion] at h
    refine ⟨List.mem_of_find?_eq_some h, ?_⟩
    have := List.find?_some h
    simp only [isTopVersion, List.all_eq_true, decide_eq_true_eq] at this
    exact this
  · intro row issueKey h
    rw [hA row issueKey, h]
    rfl

theorem C4_highest_version_selection_witness :
    ("1.2" ∈ ["1.0", "1.2"] ∧ ∀ w ∈ ["1.0", "1.2"], compareVersions w "1.2" ≤ 0) ∧
    (buildIssue [] "K").fix_version = none :=
  ⟨C4_highest_version_selection.2.1 ["1.0", "1.2"] "1.2" (by decide),
   C4_highest_version_selection.2.2.1 [] "K" (by decide)⟩

theorem jsMakeDayMs_bounds {y m d hh mi ms : Int} (h : jsMakeDayMs y m d hh mi = some ms) :
    -8640000000000000 ≤ ms ∧ ms ≤ 8640000000000000 := by
  simp only [jsMakeDayMs] at h
  split at h <;> split at h
  · rename_i hb
    obtain rfl := Option.some.inj h
    exact hb
  · exact absurd h (by simp)
  · rename_i hb
    obtain rfl := Option.some.inj h
    exact hb
  · exact absurd h (by simp)

theorem jsDateParseMs_bounds {s : String} {ms : Int} (h : jsDateParseMs s = some ms) :
    -8640000000000000 ≤ ms ∧ ms ≤ 8640000000000000 := by
  rw [jsDateParseMs] at h
  split at h
  · split at h
    · split at h
      · dsimp only at h
        split at h
        · rename_i hb
          obtain rfl := Option.some.inj h
          exact hb
        · exact absurd h (by simp)
      · exact absurd h (by simp)
    · exact absurd h (by simp)
  · exact absurd h (by simp)

theorem map_msToDateString_shape {o : Option Int} {s : String}
    (hbound : ∀ ms : Int, o = some ms →
      -8640000000000000 ≤ ms ∧ ms ≤ 8640000000000000)
    (h : o.map msToDateString = some s) :
    ∃ ms : Int, -8640000000000000 ≤ ms ∧ ms ≤ 8640000000000000 ∧ s = msToDateString ms := by
  rcases Option.map_eq_some'.mp h with ⟨ms, hms, hs⟩
  exact ⟨ms, (hbound ms hms).1, (hbound ms hms).2, hs.symm⟩

theorem tryNumericShort_shape {cs : List Char} {s : String} (h : tryNumericShort cs = some s) :
    ∃ ms : Int, -8640000000000000 ≤ ms ∧ ms ≤ 8640000000000000 ∧ s = msToDateString ms := by
  rw [tryNumericShort] at h
  rcases hm : matchNumericShort cs with _ | ⟨d, m, y, hh, mi⟩
  · rw [hm] at h
    exact absurd h (by simp)
  · rw [hm] at h
    exact map_msToDateString_shape (fun ms hms => jsMakeDayMs_bounds hms) h

theorem tryJiraFormat_shape {cs : List Char} {s : String} (h : tryJiraFormat cs = some s) :
    ∃ ms : Int, -8640000000000000 ≤ ms ∧ ms ≤ 8640000000000000 ∧ s = msToDateString ms := by
  rw [tryJiraFormat] at h
  rcases hm : matchJiraFormat cs with _ | ⟨d, mon, ydigits, hh, mi⟩
  · rw [hm] at h
    exact absurd h (by simp)
  · rw [hm] at h
    exact map_msToDateString_shape (fun ms hms => jsMakeDayMs_bounds hms) h

theorem tryISOFormat_shape {s0 : String} {s : String} (h : tryISOFormat s0 = some s) :
    ∃ ms : Int, -8640000000000000 ≤ ms ∧ ms ≤ 8640000000000000 ∧ s = msToDateString ms := by
  rw [tryISOFormat] at h
  split at h
  · exact map_msToDateString_shape (fun ms hms => jsDateParseMs_bounds hms) h
  · exact absurd h (by simp)

theorem trySlashFormat_shape {cs : List Char} {s : String} (h : trySlashFormat cs = some s) :
    ∃ ms : Int, -8640000000000000 ≤ ms ∧ ms ≤ 8640000000000000 ∧ s = msToDateString ms := by
  rw [trySlashFormat] at h
  rcases hm : matchSlashFormat cs with _ | ⟨d, m, y⟩
  · rw [hm] at h
    exact absurd h (by simp)
  · rw [hm] at h
    exact map_msToDateString_shape (fun ms hms => jsMakeDayMs_bounds hms) h

theorem tryGenericDate_shape {s0 : String} {s : String} (h : tryGenericDate s0 = some s) :
    ∃ ms : Int, -8640000000000000 ≤ ms ∧ ms ≤ 8640000000000000 ∧ s = msToDateString ms := by
  rw [tryGenericDate] at h
  exact map_msToDateString_shape (fun ms hms => jsDateParseMs_bounds hms) h

theorem parseDate_shape {x : Option String} {s : String} (h : parseDate x = some s) :
    ∃ ms : Int, -8640000000000000 ≤ ms ∧ ms ≤ 8640000000000000 ∧ s = msToDateString ms := by
  match x with
  | none => exact absurd h (by simp [parseDate])
  | some s0 =>
    rw [parseDate] at h
    by_cases h0 : s0 = ""
    · rw [if_pos h0] at h
      exact absurd h (by simp)
    rw [if_neg h0] at h
    rcases h1 : tryNumericShort s0.data with _ | v1
    swap
    · rw [h1] at h
      simp only [Option.orElse] at h
      exact Option.some.inj h ▸ tryNumericShort_shape h1
    rw [h1] at h
    simp only [Option.orElse] at h
    rcases h2 : tryJiraFormat s0.data with _ | v2
    swap
    · rw [h2] at h
      simp only [Option.orElse] at h
      exact Option.some.inj h ▸ tryJiraFormat_shape h2
    rw [h2] at h
    simp only [Option.orElse] at h
    rcases h3 : tryISOFormat s0 with _ | v3
    swap
    · rw [h3] at h
      simp only [Option.orElse] at h
      exact Option.some.inj h ▸ tryISOFormat_shape h3
    rw [h3] at h
    simp only [Option.orElse] at h
    rcases h4 : trySlashFormat s0.data with _ | v4
    swap
    · rw [h4] at h
      simp only [Option.orElse] at h
      exact Option.some.inj h ▸ trySlashFormat_shape h4
    rw [h4] at h
    simp only [Option.orElse] at h
    exact tryGenericDate_shape h

theorem ceil_day_div (n : Int) :
    -((-n) / 86400000) = ⌈((n : ℚ)) / 86400000⌉ := by
  have h86 : (0 : ℚ) < 86400000 := by norm_num
  have hk := Int.ediv_add_emod (-n) 86400000
  have hr1 : 0 ≤ (-n) % 86400000 := Int.emod_nonneg _ (by norm_num)
  have hr2 : (-n) % 86400000 < 86400000 := Int.emod_lt_of_pos _ (by norm_num)
  symm
  rw [Int.ceil_eq_iff]
  constructor
  · rw [show ((-((-n) / 86400000) : Int) : ℚ) - 1
        = ((-((-n) / 86400000) - 1 : Int) : ℚ) from by push_cast; ring]
    rw [lt_div_iff₀ h86]
    have hlt : (-((-n) / 86400000) - 1) * 86400000 < n := by omega
    calc ((-((-n) / 86400000) - 1 : Int) : ℚ) * 86400000
        = (((-((-n) / 86400000) - 1) * 86400000 : Int) : ℚ) := by push_cast; ring
      _ < ((n : Int) : ℚ) := by exact_mod_cast hlt
  · rw [div_le_iff₀ h86]
    have hle : n ≤ (-((-n) / 86400000)) * 86400000 := by omega
    calc ((n : Int) : ℚ) ≤ (((-((-n) / 86400000)) * 86400000 : Int) : ℚ) := by exact_mod_cast hle
      _ = ((-((-n) / 86400000) : Int) : ℚ) * 86400000 := by push_cast; ring

/-- C5: every mapped issue's `lead_time_days` is `calculateLeadTime` of
its parsed dates; on parsed-date inputs it is non-null exactly when both
dates are present (their re-parse by the date constructor then always
succeeds) and the resolved time is not before the created time; when
non-null it equals the ceiling of the day difference resolved minus
created and is never negative; created 2024-01-01 with resolved
2024-01-05 gives 4. -/
theorem C5_lead_time_characterization :
    (∀ (row : CSVRow) (issueKey : String),
        (buildIssue row issueKey).lead_time_days
          = calculateLeadTime (parseDate (findColumn row "created_date"))
              (parseDate (findColumn row "resolved_date"))) ∧
    (∀ x y : Option String,
        calculateLeadTime (parseDate x) (parseDate y) ≠ none ↔
          ∃ (cs rs : String) (cms rms : Int),
            parseDate x = some cs ∧ parseDate y = some rs ∧
            jsDateParseMs cs = some cms ∧ jsDateParseMs rs = some rms ∧ cms ≤ rms) ∧
    (∀ (cs rs : String) (cms rms d : Int),
        jsDateParseMs cs = some cms → jsDateParseMs rs = some rms →
        calculateLeadTime (some cs) (some rs) = some d →
        d = ⌈(((rms : ℚ)) - ((cms : ℚ))) / 86400000⌉) ∧
    (∀ (x y : Option String) (d : Int), calculateLeadTime x y = some d → 0 ≤ d) ∧
    calculateLeadTime (parseDate (some "2024-01-01")) (parseDate (some "2024-01-05"))
      = some 4 := by
  refine ⟨fun row issueKey => rfl, ?_, ?_, ?_, by decide⟩
  · intro x y
    constructor
    · intro hne
      rcases hx : parseDate x with _ | cs
      · rw [hx] at hne
        exact absurd rfl hne
      rcases hy : parseDate y with _ | rs
      · rw [hx, hy] at hne
        exact absurd rfl hne
      obtain ⟨cms0, hc1, hc2, rfl⟩ := parseDate_shape hx
      obtain ⟨rms0, hr1, hr2, rfl⟩ := parseDate_shape hy
      have hzc : jsDateParseMs (msToDateString cms0)
          = some (cms0 / 86400000 * 86400000) := by
        rw [msToDateString]
        exact jsDateParseMs_format _ (by omega) (by omega)
      have hzr : jsDateParseMs (msToDateString rms0)
          = some (rms0 / 86400000 * 86400000) := by
        rw [msToDateString]
        exact jsDateParseMs_format _ (by omega) (by omega)
      refine ⟨_, _, _, _, rfl, rfl, hzc, hzr, ?_⟩
      rw [hx, hy] at hne
      simp only [calculateLeadTime, hzc, hzr] at hne
      have hdd : -((-(rms0 / 86400000 * 86400000 - cms0 / 86400000 * 86400000)) / 86400000)
          = rms0 / 86400000 - cms0 / 86400000 := by
        rw [show -(rms0 / 86400000 * 86400000 - cms0 / 86400000 * 86400000)
              = (cms0 / 86400000 - rms0 / 86400000) * 86400000 from by ring]
        rw [Int.mul_ediv_cancel _ (by norm_num)]
        ring
      rw [hdd] at hne
      by_cases hle : (0 : Int) ≤ rms0 / 86400000 - cms0 / 86400000
      · have : rms0 / 86400000 * 86400000 - cms0 / 86400000 * 86400000
            = (rms0 / 86400000 - cms0 / 86400000) * 86400000 := by ring
        omega
      · rw [if_neg hle] at hne
        exact absurd rfl hne
    · rintro ⟨cs, rs, cms, rms, hx, hy, hc, hr, hle⟩
      rw [hx, hy]
      simp only [calculateLeadTime, hc, hr]
      rw [if_pos (by omega : (0 : Int) ≤ -((-(rms - cms)) / 86400000))]
      simp
  · intro cs rs cms rms d hc hr h
    simp only [calculateLeadTime, hc, hr] at h
    split at h
    · obtain rfl := Option.some.inj h
      rw [ceil_day_div (rms - cms)]
      push_cast
      ring_nf
    · exact absurd h (by simp)
  · intro x y d h
    rcases x with _ | cs
    · exact absurd h (by simp [calculateLeadTime])
    rcases y with _ | rs
    · exact absurd h (by simp [calculateLeadTime])
    rcases hc : jsDateParseMs cs with _ | cms
    · simp [calculateLeadTime, hc] at h
    rcases hr : jsDateParseMs rs with _ | rms
    · simp [calculateLeadTime, hc, hr] at h
    simp only [calculateLeadTime, hc, hr] at h
    split at h
    · rename_i hpos
      obtain rfl := Option.some.inj h
      exact hpos
    · exact absurd h (by simp)

theorem C5_lead_time_characterization_witness :
    calculateLeadTime (parseDate (some "2024-01-01")) (parseDate (some "2024-01-05")) ≠ none ∧
    (4 : Int) = ⌈(((1704412800000 : Int) : ℚ) - ((1704067200000 : Int) : ℚ)) / 86400000⌉ ∧
    (0 : Int) ≤ (4 : Int) :=
  ⟨(C5_lead_time_characterization.2.1 (some "2024-01-01") (some "2024-01-05")).mpr
      ⟨"2024-01-01", "2024-01-05", 1704067200000, 1704412800000,
        by decide, by decide, by decide, by decide, by decide⟩,
   C5_lead_time_characterization.2.2.1 "2024-01-01" "2024-01-05"
      1704067200000 1704412800000 4 (by decide) (by decide) (by decide),
   C5_lead_time_characterization.2.2.2.1 (some "2024-01-01") (some "2024-01-05") 4 (by decide)⟩
